import Mathlib

/-!
Verification of the persistence core of the linkchecker repository:
the SQLite-backed durable store (src/linkcheck/cache/sqlite_store.py),
the persistent result cache (src/linkcheck/cache/persistent_result_cache.py)
and the hybrid persistent URL queue (src/linkcheck/cache/persistent_url_queue.py),
shallowly embedded as pure Lean functions over explicit state records.
-/

namespace LinkCheck

/-! ## Timestamps and ISO-8601 serialisation

`SqliteStore._serialize_modified` stores a `datetime` as `modified.isoformat()`
and `_deserialize_modified` reads it back with `datetime.fromisoformat`.
We model a (naive) datetime value with the fields Python's `datetime` carries
and the exact fixed-width ISO-8601 text format `isoformat` emits:
`YYYY-MM-DDTHH:MM:SS` followed by `.ffffff` when the microsecond field is
non-zero.  `fromisoformat` is modelled as the parser of exactly that format
(Python's parser accepts a superset; on `isoformat` output both agree). -/

structure DateTime where
  year : Nat
  month : Nat
  day : Nat
  hour : Nat
  minute : Nat
  second : Nat
  microsecond : Nat
deriving DecidableEq, Repr

/-- Range invariants of Python's `datetime` constructor
(`MINYEAR = 1`, `MAXYEAR = 9999`). -/
def DateTime.ok (d : DateTime) : Prop :=
  1 ≤ d.year ∧ d.year ≤ 9999 ∧ 1 ≤ d.month ∧ d.month ≤ 12 ∧
  1 ≤ d.day ∧ d.day ≤ 31 ∧ d.hour ≤ 23 ∧ d.minute ≤ 59 ∧
  d.second ≤ 59 ∧ d.microsecond ≤ 999999

instance (d : DateTime) : Decidable d.ok := by
  unfold DateTime.ok; infer_instance

def digitChar (n : Nat) : Char := Char.ofNat (48 + n)

def digitVal (c : Char) : Option Nat :=
  if 48 ≤ c.toNat ∧ c.toNat ≤ 57 then some (c.toNat - 48) else none

/-- Two-digit decimal field, as `%02d` prints it (value below 100). -/
def twoDigits (c d : Char) : Option Nat := do
  let a ← digitVal c
  let b ← digitVal d
  pure (10 * a + b)

/-- The character list of `datetime.isoformat()` output. -/
def isoChars (d : DateTime) : List Char :=
  digitChar (d.year / 1000) :: digitChar (d.year / 100 % 10) ::
  digitChar (d.year / 10 % 10) :: digitChar (d.year % 10) :: '-' ::
  digitChar (d.month / 10) :: digitChar (d.month % 10) :: '-' ::
  digitChar (d.day / 10) :: digitChar (d.day % 10) :: 'T' ::
  digitChar (d.hour / 10) :: digitChar (d.hour % 10) :: ':' ::
  digitChar (d.minute / 10) :: digitChar (d.minute % 10) :: ':' ::
  digitChar (d.second / 10) :: digitChar (d.second % 10) ::
  (if d.microsecond == 0 then [] else
    '.' :: digitChar (d.microsecond / 100000) ::
    digitChar (d.microsecond / 10000 % 10) ::
    digitChar (d.microsecond / 1000 % 10) ::
    digitChar (d.microsecond / 100 % 10) ::
    digitChar (d.microsecond / 10 % 10) ::
    digitChar (d.microsecond % 10) :: [])

def isoformat (d : DateTime) : String := String.mk (isoChars d)

/-- Fractional-second suffix of the ISO format: empty, or a dot and six digits. -/
def parseMicro : List Char → Option Nat
  | [] => some 0
  | '.' :: u1 :: u2 :: u3 :: u4 :: u5 :: u6 :: [] => do
    let a ← digitVal u1
    let b ← digitVal u2
    let c ← digitVal u3
    let d ← digitVal u4
    let e ← digitVal u5
    let f ← digitVal u6
    pure (a * 100000 + b * 10000 + c * 1000 + d * 100 + e * 10 + f)
  | _ => none

/-- Parser for the exact text `isoformat` produces, modelling
`datetime.fromisoformat` on such input. -/
def parseISOChars : List Char → Option DateTime
  | y1 :: y2 :: y3 :: y4 :: '-' :: m1 :: m2 :: '-' :: d1 :: d2 :: 'T' ::
    h1 :: h2 :: ':' :: n1 :: n2 :: ':' :: s1 :: s2 :: rest => do
    let ya ← twoDigits y1 y2
    let yb ← twoDigits y3 y4
    let mo ← twoDigits m1 m2
    let da ← twoDigits d1 d2
    let ho ← twoDigits h1 h2
    let mi ← twoDigits n1 n2
    let se ← twoDigits s1 s2
    let mu ← parseMicro rest
    pure ⟨ya * 100 + yb, mo, da, ho, mi, se, mu⟩
  | _ => none

def fromisoformat (s : String) : Option DateTime := parseISOChars s.data

/-- `SqliteStore._serialize_modified`: `None` maps to `None`, a datetime to its
ISO string (the `str(modified)` fallback is unreachable for wire-shaped input). -/
def serializeModified : Option DateTime → Option String
  | none => none
  | some d => some (isoformat d)

/-- `SqliteStore._deserialize_modified`: `None` stays `None`; a string is parsed
with `fromisoformat`, parse errors yielding `None`. -/
def deserializeModified : Option String → Option DateTime
  | none => none
  | some s => fromisoformat s

theorem digitVal_digitChar {n : Nat} (h : n < 10) :
    digitVal (digitChar n) = some n := by
  interval_cases n <;> rfl

theorem twoDigits_split {a b : Nat} (ha : a < 10) (hb : b < 10) :
    twoDigits (digitChar a) (digitChar b) = some (10 * a + b) := by
  simp [twoDigits, digitVal_digitChar ha, digitVal_digitChar hb]

theorem parseISO_isoChars {d : DateTime} (h : d.ok) :
    parseISOChars (isoChars d) = some d := by
  obtain ⟨y, mo, da, ho, mi, se, mu⟩ := d
  obtain ⟨h1, h2, h3, h4, h5, h6, h7, h8, h9, h10⟩ := h
  dsimp only at h1 h2 h3 h4 h5 h6 h7 h8 h9 h10
  have e1 := twoDigits_split (a := y / 1000) (b := y / 100 % 10)
    (by omega) (by omega)
  have e2 := twoDigits_split (a := y / 10 % 10) (b := y % 10)
    (by omega) (by omega)
  have e3 := twoDigits_split (a := mo / 10) (b := mo % 10) (by omega) (by omega)
  have e4 := twoDigits_split (a := da / 10) (b := da % 10) (by omega) (by omega)
  have e5 := twoDigits_split (a := ho / 10) (b := ho % 10) (by omega) (by omega)
  have e6 := twoDigits_split (a := mi / 10) (b := mi % 10) (by omega) (by omega)
  have e7 := twoDigits_split (a := se / 10) (b := se % 10) (by omega) (by omega)
  by_cases hmu : mu = 0
  · subst hmu
    simp only [isoChars, beq_self_eq_true, if_true, parseISOChars,
      e1, e2, e3, e4, e5, e6, e7, parseMicro, Option.bind_eq_bind,
      Option.some_bind, Option.pure_def, Option.some.injEq, DateTime.mk.injEq,
      and_true]
    omega
  · have eu1 := digitVal_digitChar (n := mu / 100000) (by omega)
    have eu2 := digitVal_digitChar (n := mu / 10000 % 10) (by omega)
    have eu3 := digitVal_digitChar (n := mu / 1000 % 10) (by omega)
    have eu4 := digitVal_digitChar (n := mu / 100 % 10) (by omega)
    have eu5 := digitVal_digitChar (n := mu / 10 % 10) (by omega)
    have eu6 := digitVal_digitChar (n := mu % 10) (by omega)
    simp only [isoChars, beq_iff_eq, if_neg hmu, parseISOChars,
      e1, e2, e3, e4, e5, e6, e7, parseMicro,
      eu1, eu2, eu3, eu4, eu5, eu6, Option.bind_eq_bind,
      Option.some_bind, Option.pure_def, Option.some.injEq, DateTime.mk.injEq,
      and_true]
    omega

/-- Round trip of the `modified` column: serialising a valid datetime and
deserialising the stored text recovers the same datetime value. -/
theorem deserialize_serialize_modified {m : Option DateTime}
    (h : ∀ d, m = some d → d.ok) :
    deserializeModified (serializeModified m) = m := by
  cases m with
  | none => rfl
  | some d =>
    simp only [serializeModified, deserializeModified, fromisoformat, isoformat]
    exact parseISO_isoChars (h d rfl)

end LinkCheck

namespace LinkCheck

/-! ## Data model of the durable store (`SqliteStore`, sqlite_store.py)

Lists model the tables, kept in insertion (= rowid) order; `next_id` models
the `AUTOINCREMENT` primary key of `url_queue`, and `clock` a monotone wall
clock supplying `time.time()` values for the timestamp columns.  TEXT columns
holding JSON (`warnings`, `info`) are modelled by the parsed JSON value they
carry, REAL columns by their exact stored value. -/

inductive Status where
  | pending
  | in_progress
  | done
  | skipped
deriving DecidableEq, Repr

/-- Value of a url record's `extern` attribute as serialised by
`_overflow_to_sqlite`: either the empty string (falsy attribute) or a
two-element list. -/
inductive ExternV where
  | emptyStr
  | pairOf (a b : Int)
deriving DecidableEq, Repr

/-- Wire shape of a completed check result: the keys `SqliteStore.add_result`
reads from a `to_wire_dict()` mapping, plus `cache_url`, which
`_row_to_wire_dict` adds on read (and `add_result` takes as a parameter).
`modified` is a timestamp value, each `warnings` element a pair. -/
structure WireDict where
  url : String
  valid : Bool
  extern_val : Bool
  result : String
  warnings : List (String × String)
  info : List String
  name : String
  title : String
  parent_url : String
  base_ref : String
  base_url : String
  domain : String
  content_type : String
  size : Int
  modified : Option DateTime
  dltime : Int
  checktime : Int
  line : Int
  column : Int
  page : Int
  level : Int
  cache_url : Option String
deriving DecidableEq, Repr

/-- One row of the `check_results` table.  `valid` carries 0/1 or the
placeholder sentinel -1; `warnings` holds the JSON array-of-arrays the
TEXT column decodes to; `modified` the ISO string or NULL. -/
structure ResultRow where
  cache_url : String
  url : String
  valid : Int
  extern_val : Int
  result : String
  warnings : List (List String)
  info : List String
  name : String
  title : String
  parent_url : String
  base_ref : String
  base_url : String
  domain : String
  content_type : String
  size : Int
  modified : Option String
  dltime : Int
  checktime : Int
  line : Int
  column_num : Int
  page : Int
  level : Int
  checked_at : Nat
deriving DecidableEq, Repr

/-- One row of the `url_queue` table. -/
structure QueueRow where
  id : Nat
  url : String
  cache_url : Option String
  parent_url : String
  base_ref : String
  recursion_level : Int
  line : Int
  column_num : Int
  page : Int
  name : String
  extern_val : ExternV
  url_encoding : String
  parent_content_type : String
  status : Status
  created_at : Nat
  updated_at : Option Nat
deriving DecidableEq, Repr

/-- The `url_info` dict handed to `enqueue_url`/`enqueue_urls_batch`
(built by `PersistentUrlQueue._overflow_to_sqlite`). -/
structure UrlInfo where
  url : String
  cache_url : Option String
  parent_url : String
  base_ref : String
  recursion_level : Int
  line : Int
  column : Int
  page : Int
  name : String
  extern_val : ExternV
  url_encoding : String
  parent_content_type : String
deriving DecidableEq, Repr

structure Store where
  next_id : Nat
  clock : Nat
  url_queue : List QueueRow
  check_results : List ResultRow
deriving DecidableEq, Repr

def freshStore : Store := ⟨1, 0, [], []⟩

/-- Row built by the INSERT of `enqueue_url`/`enqueue_urls_batch`:
explicit columns from the url_info dict, `status` 'pending',
`created_at` from the clock, remaining columns schema defaults. -/
def mkQueueRow (info : UrlInfo) (id clock : Nat) : QueueRow :=
  { id := id, url := info.url, cache_url := info.cache_url,
    parent_url := info.parent_url, base_ref := info.base_ref,
    recursion_level := info.recursion_level, line := info.line,
    column_num := info.column, page := info.page, name := info.name,
    extern_val := info.extern_val, url_encoding := info.url_encoding,
    parent_content_type := info.parent_content_type,
    status := .pending, created_at := clock, updated_at := none }

/-- The INSERT of one queue row: fails (IntegrityError, swallowed) exactly
when the new `cache_url` is non-null and an existing row carries the same
value, per the partial unique index `idx_queue_cache_url`. -/
def Store.insert_queue_row (info : UrlInfo) (st : Store) : Option Store :=
  let conflict :=
    match info.cache_url with
    | some k => st.url_queue.any (fun r => r.cache_url == some k)
    | none => false
  if conflict then none
  else some { st with
    url_queue := st.url_queue ++ [mkQueueRow info st.next_id st.clock],
    next_id := st.next_id + 1, clock := st.clock + 1 }

/-- `SqliteStore.enqueue_url`: true if inserted, false on duplicate
`cache_url` (the IntegrityError is swallowed). -/
def Store.enqueue_url (info : UrlInfo) (st : Store) : Bool × Store :=
  match st.insert_queue_row info with
  | some st' => (true, st')
  | none => (false, st)

/-- `SqliteStore.enqueue_urls_batch`: inserts each url_info in turn inside
one transaction, skipping conflicts; returns the count actually added. -/
def Store.enqueue_urls_batch (infos : List UrlInfo) (st : Store) :
    Nat × Store :=
  infos.foldl
    (fun acc info =>
      match acc.2.insert_queue_row info with
      | some st' => (acc.1 + 1, st')
      | none => acc)
    (0, st)

/-- `SqliteStore.dequeue_urls`: SELECT the oldest (id ASC) pending rows,
LIMIT batch_size, then UPDATE exactly those ids to 'in_progress' in the same
transaction.  The rows are returned as fetched, i.e. still showing status
'pending'.  `url_queue` is kept in id order, so filter + take realises
ORDER BY id ASC LIMIT. -/
def Store.dequeue_urls (batch_size : Nat) (st : Store) :
    List QueueRow × Store :=
  let rows := (st.url_queue.filter (fun r => r.status == .pending)).take
    batch_size
  if rows.isEmpty then (rows, st)
  else
    (rows,
     { st with
       url_queue := st.url_queue.map (fun q =>
         if rows.any (fun r => r.id == q.id) then
           { q with status := .in_progress, updated_at := some st.clock }
         else q),
       clock := st.clock + 1 })

/-- `SqliteStore.mark_url_done`: UPDATE one row to 'done' by id. -/
def Store.mark_url_done (queue_id : Nat) (st : Store) : Store :=
  { st with
    url_queue := st.url_queue.map (fun q =>
      if q.id == queue_id then
        { q with status := .done, updated_at := some st.clock }
      else q),
    clock := st.clock + 1 }

/-- Non-null `cache_url` values of the rows currently 'in_progress'
(the subquery of `reset_in_progress`; SQL `IN` ignores NULL elements). -/
def Store.in_progress_keys (st : Store) : List String :=
  (st.url_queue.filter (fun r => r.status == .in_progress)).filterMap
    (fun r => r.cache_url)

/-- `SqliteStore.reset_in_progress`: one transaction that deletes every
`check_results` placeholder (`valid = -1`) whose key matches an
'in_progress' row, then flips every 'in_progress' row back to 'pending';
returns the UPDATE rowcount. -/
def Store.reset_in_progress (st : Store) : Nat × Store :=
  let keys := st.in_progress_keys
  let n := (st.url_queue.filter (fun r => r.status == .in_progress)).length
  (n,
   { st with
     check_results := st.check_results.filter (fun r =>
       !(r.valid == -1 && keys.contains r.cache_url)),
     url_queue := st.url_queue.map (fun q =>
       if q.status == .in_progress then
         { q with status := .pending, updated_at := some st.clock }
       else q),
     clock := st.clock + 1 })

/-- `SqliteStore.has_pending_urls`. -/
def Store.has_pending_urls (st : Store) : Bool :=
  st.url_queue.any (fun r =>
    r.status == .pending || r.status == .in_progress)

structure QueueStats where
  pending : Nat
  in_progress : Nat
  done : Nat
  skipped : Nat
deriving DecidableEq, Repr

/-- `SqliteStore.get_queue_stats`: COUNT(*) per status value. -/
def Store.get_queue_stats (st : Store) : QueueStats :=
  { pending := (st.url_queue.filter (fun r => r.status == .pending)).length,
    in_progress :=
      (st.url_queue.filter (fun r => r.status == .in_progress)).length,
    done := (st.url_queue.filter (fun r => r.status == .done)).length,
    skipped := (st.url_queue.filter (fun r => r.status == .skipped)).length }

end LinkCheck

namespace LinkCheck

/-! ## Result-cache operations of the durable store -/

/-- The row inserted by the placeholder branch of `SqliteStore.add_result`:
explicit columns `(cache_url, url, checked_at, valid, result) =
(fp, '', now, -1, 'pending')`, every other column its schema default. -/
def placeholderRow (fp : String) (clock : Nat) : ResultRow :=
  { cache_url := fp, url := "", valid := -1, extern_val := 0,
    result := "pending", warnings := [], info := [], name := "",
    title := "", parent_url := "", base_ref := "", base_url := "",
    domain := "", content_type := "", size := -1, modified := none,
    dltime := -1, checktime := 0, line := 0, column_num := 0, page := 0,
    level := 0, checked_at := clock }

/-- The row written by the real-result branch of `SqliteStore.add_result`:
booleans to 0/1, `warnings`/`info` JSON-encoded (pairs become two-element
arrays), `modified` serialised, `checked_at` from the clock. -/
def encodeResultRow (fp : String) (w : WireDict) (clock : Nat) : ResultRow :=
  { cache_url := fp, url := w.url,
    valid := if w.valid then 1 else 0,
    extern_val := if w.extern_val then 1 else 0,
    result := w.result,
    warnings := w.warnings.map (fun p => [p.1, p.2]),
    info := w.info, name := w.name, title := w.title,
    parent_url := w.parent_url, base_ref := w.base_ref,
    base_url := w.base_url, domain := w.domain,
    content_type := w.content_type, size := w.size,
    modified := serializeModified w.modified,
    dltime := w.dltime, checktime := w.checktime, line := w.line,
    column_num := w.column, page := w.page, level := w.level,
    checked_at := clock }

/-- `SqliteStore.add_result`: `None` inserts a placeholder row unless the
key already exists (IntegrityError swallowed); a wire dict is written with
INSERT OR REPLACE, which deletes any conflicting row and inserts anew. -/
def Store.add_result (fp : String) (w : Option WireDict) (st : Store) :
    Store :=
  match w with
  | none =>
    if st.check_results.any (fun r => r.cache_url == fp) then st
    else { st with
      check_results := st.check_results ++ [placeholderRow fp st.clock],
      clock := st.clock + 1 }
  | some wd =>
    { st with
      check_results :=
        st.check_results.filter (fun r => !(r.cache_url == fp)) ++
          [encodeResultRow fp wd st.clock],
      clock := st.clock + 1 }

/-- `SqliteStore.has_result`: any row for the key, placeholders included. -/
def Store.has_result (fp : String) (st : Store) : Bool :=
  st.check_results.any (fun r => r.cache_url == fp)

/-- Python's `tuple(w)` applied to a decoded `warnings` element; the stored
JSON is always a two-element array (see `encodeResultRow`). -/
def tupleOfList (l : List String) : String × String :=
  (l.headD "", l.tail.headD "")

/-- `SqliteStore._row_to_wire_dict`: placeholder rows (`valid == -1`) decode
to `None`; otherwise 0/1 columns re-materialise as booleans, each
`warnings` element as a pair, `modified` as a timestamp via
`_deserialize_modified`, and `cache_url` is included in the wire dict. -/
def rowToWireDict (r : ResultRow) : Option WireDict :=
  if r.valid == -1 then none
  else some
    { url := r.url, valid := !(r.valid == 0),
      extern_val := !(r.extern_val == 0), result := r.result,
      warnings := r.warnings.map tupleOfList, info := r.info,
      name := r.name, title := r.title, parent_url := r.parent_url,
      base_ref := r.base_ref, base_url := r.base_url, domain := r.domain,
      content_type := r.content_type, size := r.size,
      modified := deserializeModified r.modified, dltime := r.dltime,
      checktime := r.checktime, line := r.line, column := r.column_num,
      page := r.page, level := r.level, cache_url := some r.cache_url }

/-- `SqliteStore.get_result`: SELECT by primary key, decoded by
`_row_to_wire_dict`. -/
def Store.get_result (fp : String) (st : Store) : Option WireDict :=
  match st.check_results.find? (fun r => r.cache_url == fp) with
  | some r => rowToWireDict r
  | none => none

/-- `SqliteStore.get_result_count`: COUNT(*) of rows with `valid != -1`. -/
def Store.get_result_count (st : Store) : Nat :=
  (st.check_results.filter (fun r => !(r.valid == -1))).length

/-! ## The persistent result cache (`PersistentResultCache`,
persistent_result_cache.py)

In-memory state: the LRU is an ordered association list (front = oldest, as
`OrderedDict` iterates), whose values are either a domain-shaped result
(`CompactUrlData`, here represented by its wire dict) or `none` for a
placeholder; `known_keys` is the `_known_keys` set; `result_count` the
`_result_count` counter.  The shared `SqliteStore` is passed alongside. -/

structure CacheState where
  memory_cache_size : Nat
  lru : List (String × Option WireDict)
  known_keys : List String
  result_count : Nat
deriving DecidableEq, Repr

/-- `PersistentResultCache.__init__`: empty LRU and key set, counter
initialised from the store. -/
def freshCache (st : Store) (memory_cache_size : Nat) : CacheState :=
  { memory_cache_size := memory_cache_size, lru := [], known_keys := [],
    result_count := st.get_result_count }

/-- `PersistentResultCache._lru_put`: replace-and-move-to-end for a present
key, otherwise evict the oldest entry when full and append. -/
def lruPut (key : String) (v : Option WireDict) (c : CacheState) :
    CacheState :=
  if c.lru.any (fun p => p.1 == key) then
    { c with lru := c.lru.filter (fun p => !(p.1 == key)) ++ [(key, v)] }
  else if c.memory_cache_size ≤ c.lru.length then
    { c with lru := c.lru.drop 1 ++ [(key, v)] }
  else
    { c with lru := c.lru ++ [(key, v)] }

/-- `_known_keys.add(key)`. -/
def addKnownKey (key : String) (ks : List String) : List String :=
  if ks.contains key then ks else key :: ks

/-- `PersistentResultCache.has_result`: O(1) membership in `_known_keys`
(`None` is never a member, since `add_result` returns early on it). -/
def cacheHasResult (key : Option String) (c : CacheState) : Bool :=
  match key with
  | some k => c.known_keys.contains k
  | none => false

/-- `PersistentResultCache.get_result`: LRU first (move-to-end on hit,
returning the stored value, which may be a placeholder `None`), then the
store, promoting a hit into the LRU.  `_known_keys` is NOT updated on a
store hit. -/
def cacheGetResult (key : Option String) (c : CacheState) (st : Store) :
    Option WireDict × CacheState :=
  match key with
  | none => (none, c)
  | some k =>
    match c.lru.find? (fun p => p.1 == k) with
    | some p =>
      (p.2, { c with lru := c.lru.filter (fun q => !(q.1 == k)) ++ [(k, p.2)] })
    | none =>
      match st.get_result k with
      | some w => (some w, lruPut k (some w) c)
      | none => (none, c)

/-- `PersistentResultCache.add_result`: a `None` key is ignored; otherwise
the key joins `_known_keys`, the store is updated, the LRU receives the
domain-shaped value, and `_result_count` is bumped for real results.
(The three accepted input shapes all reduce to the same wire dict.) -/
def cacheAddResult (key : Option String) (v : Option WireDict)
    (c : CacheState) (st : Store) : CacheState × Store :=
  match key with
  | none => (c, st)
  | some k =>
    let c1 := { c with known_keys := addKnownKey k c.known_keys }
    match v with
    | none => (lruPut k none c1, st.add_result k none)
    | some w =>
      let c2 := lruPut k (some w) c1
      ({ c2 with result_count := c2.result_count + 1 },
       st.add_result k (some w))

/-- `PersistentResultCache.has_non_empty_result`: the LRU value if the key
is cached (placeholders yield `None`), else the decoded store row. -/
def hasNonEmptyResult (k : String) (c : CacheState) (st : Store) :
    Option WireDict :=
  match c.lru.find? (fun p => p.1 == k) with
  | some p => p.2
  | none => st.get_result k

/-- `PersistentResultCache.__len__`: the in-memory counter. -/
def cacheLen (c : CacheState) : Nat := c.result_count

end LinkCheck

namespace LinkCheck

/-! ## The hybrid URL queue (`PersistentUrlQueue`, persistent_url_queue.py)

The queue owns the memory FIFO (`queue`, front = head), the overflow staging
list (`_overflow_buffer`), the `_sqlite_pending` counter and the task
counters, and shares the store and the aggregate's result cache.  The
injected rebuilder (`url_rebuilder.rebuild_url_data` via the aggregate,
spec section 6) is a parameter `agg : Option (QueueRow → Option Item)`:
`none` models an unset aggregate, `some rb` a set aggregate whose rebuild
returns `none` when `get_url_from` raises (RebuildError). -/

/-- A `url_data` object as the queue observes it: its cache key, whether it
carries a pre-computed result (`has_result`), the attributes
`_overflow_to_sqlite` serialises, and the `_sqlite_queue_id` attached by the
rebuilder to rows reloaded from the store. -/
structure Item where
  url : String
  base_url : String
  cache_url : Option String
  has_result : Bool
  parent_url : String
  base_ref : String
  recursion_level : Int
  line : Int
  column : Int
  page : Int
  name : String
  extern_val : ExternV
  content_encoding : String
  parent_content_type : String
  sqlite_queue_id : Option Nat
deriving DecidableEq, Repr

/-- `PersistentUrlQueue._overflow_to_sqlite`'s `url_info` dict ('url' is the
record's `base_url`, 'url_encoding' its `content_encoding`). -/
def overflowInfo (it : Item) : UrlInfo :=
  { url := it.base_url, cache_url := it.cache_url,
    parent_url := it.parent_url, base_ref := it.base_ref,
    recursion_level := it.recursion_level, line := it.line,
    column := it.column, page := it.page, name := it.name,
    extern_val := it.extern_val, url_encoding := it.content_encoding,
    parent_content_type := it.parent_content_type }

def MEMORY_BUFFER_SIZE : Nat := 5000
def BATCH_LOAD_SIZE : Nat := 500
def OVERFLOW_CHECK_INTERVAL : Nat := 100

structure QState where
  store : Store
  cache : CacheState
  queue : List Item
  buffer_size : Nat
  unfinished_tasks : Int
  finished_tasks : Nat
  in_progress : Int
  shutdown : Bool
  max_allowed_urls : Option Int
  overflow_buffer : List UrlInfo
  sqlite_pending : Int
deriving DecidableEq, Repr

/-- `PersistentUrlQueue.__init__` over a fresh store and fresh cache. -/
def freshQ (buffer_size memory_cache_size : Nat)
    (max_allowed_urls : Option Int) : QState :=
  { store := freshStore, cache := freshCache freshStore memory_cache_size,
    queue := [], buffer_size := buffer_size, unfinished_tasks := 0,
    finished_tasks := 0, in_progress := 0, shutdown := false,
    max_allowed_urls := max_allowed_urls, overflow_buffer := [],
    sqlite_pending := 0 }

/-- `PersistentUrlQueue.qsize`. -/
def qsize (s : QState) : Nat :=
  s.queue.length + s.sqlite_pending.toNat + s.overflow_buffer.length

/-- `PersistentUrlQueue._empty`. -/
def qEmptyB (s : QState) : Bool :=
  s.queue.isEmpty && s.sqlite_pending == 0 && s.overflow_buffer.isEmpty

/-- `PersistentUrlQueue._flush_overflow`: batch-insert the staging list,
add the count actually inserted to `_sqlite_pending`, clear the staging. -/
def flushOverflow (s : QState) : QState :=
  if s.overflow_buffer.isEmpty then s
  else
    let r := Store.enqueue_urls_batch s.overflow_buffer s.store
    { s with
      store := r.2, sqlite_pending := s.sqlite_pending + r.1,
      overflow_buffer := [] }

/-- `PersistentUrlQueue._overflow_to_sqlite`: stage the serialised record,
flushing once the staging list reaches `OVERFLOW_CHECK_INTERVAL`. -/
def overflowOne (it : Item) (s : QState) : QState :=
  let s1 := { s with overflow_buffer := s.overflow_buffer ++ [overflowInfo it] }
  if OVERFLOW_CHECK_INTERVAL ≤ s1.overflow_buffer.length then
    flushOverflow s1
  else s1

/-- `PersistentUrlQueue._put`.  Returns the new state and whether the record
was admitted.  Drops: shutdown flag or exhausted quota; fingerprint already
in the result cache (duplicate suppression).  A record with a pre-computed
result is prepended; an ordinary record must carry a key (the assert raises
before any state change otherwise), consumes quota and goes to memory or
overflow; every admitted record bumps `unfinished_tasks` and writes a cache
placeholder under its key. -/
def doPut (it : Item) (s : QState) : QState × Bool :=
  if s.shutdown || s.max_allowed_urls == some 0 then (s, false)
  else if cacheHasResult it.cache_url s.cache then (s, false)
  else if it.has_result then
    let s1 := { s with
      queue := it :: s.queue,
      unfinished_tasks := s.unfinished_tasks + 1 }
    let r := cacheAddResult it.cache_url none s1.cache s1.store
    ({ s1 with cache := r.1, store := r.2 }, true)
  else
    match it.cache_url with
    | none => (s, false)
    | some _ =>
      let s1 := { s with
        max_allowed_urls := s.max_allowed_urls.map (fun m => m - 1) }
      let s2 :=
        if s1.queue.length < s1.buffer_size then
          { s1 with queue := s1.queue ++ [it] }
        else overflowOne it s1
      let s3 := { s2 with unfinished_tasks := s2.unfinished_tasks + 1 }
      let r := cacheAddResult it.cache_url none s3.cache s3.store
      ({ s3 with cache := r.1, store := r.2 }, true)

/-- One row of `PersistentUrlQueue._load_from_sqlite`'s loop: with an
aggregate set, a row whose truthy key has a non-empty cached result is
finalised in place (marked done, `_sqlite_pending` and `unfinished_tasks`
decremented); otherwise the rebuilder runs and a successful rebuild joins
the memory FIFO; `_sqlite_pending` is decremented for every processed row. -/
def skipRow (row : QueueRow) (c : CacheState) (st : Store) : Bool :=
  match row.cache_url with
  | some cu => !(cu == "") && (hasNonEmptyResult cu c st).isSome
  | none => false

def loadStep (agg : Option (QueueRow → Option Item)) (s : QState)
    (row : QueueRow) : QState :=
  match agg with
  | some rb =>
    if skipRow row s.cache s.store then
      { s with
        store := s.store.mark_url_done row.id,
        sqlite_pending := s.sqlite_pending - 1,
        unfinished_tasks := s.unfinished_tasks - 1 }
    else
      match rb row with
      | some it =>
        { s with
          queue := s.queue ++ [it],
          sqlite_pending := s.sqlite_pending - 1 }
      | none => { s with sqlite_pending := s.sqlite_pending - 1 }
  | none => { s with sqlite_pending := s.sqlite_pending - 1 }

/-- `PersistentUrlQueue._load_from_sqlite`: dequeue a batch from the store
and process each row. -/
def loadFromSqlite (agg : Option (QueueRow → Option Item)) (s : QState) :
    QState :=
  let r := Store.dequeue_urls BATCH_LOAD_SIZE s.store
  r.1.foldl (loadStep agg) { s with store := r.2 }

inductive GetOut where
  | blocked
  | fault
  | got (it : Item)
deriving DecidableEq, Repr

/-- `PersistentUrlQueue._get` after the wait loop: `blocked` stands for a
get that is still waiting (or raised Empty on timeout) with the state
unchanged; otherwise, with the memory FIFO empty, overflow is flushed and a
batch loaded from the store; `in_progress` is incremented and the FIFO head
popped — `fault` is the IndexError raised by `popleft` on an empty deque,
with the increments already applied. -/
def getLoadIfPending (agg : Option (QueueRow → Option Item))
    (sa : QState) : QState :=
  if 0 < sa.sqlite_pending then loadFromSqlite agg sa else sa

/-- The refill phase of `_get`: with the memory FIFO empty, flush overflow
staging if non-empty, then batch-load from the store if it holds pending
records. -/
def getReload (agg : Option (QueueRow → Option Item)) (s : QState) :
    QState :=
  if s.queue.isEmpty then
    getLoadIfPending agg
      (if s.overflow_buffer.isEmpty then s else flushOverflow s)
  else s

/-- The pop phase of `_get`: increment `in_progress`, then `popleft`. -/
def getPop (s1 : QState) : GetOut × QState :=
  match s1.queue with
  | [] => (.fault, { s1 with in_progress := s1.in_progress + 1 })
  | it :: rest =>
    (.got it, { s1 with in_progress := s1.in_progress + 1, queue := rest })

def doGet (agg : Option (QueueRow → Option Item)) (s : QState) :
    GetOut × QState :=
  if qEmptyB s then (.blocked, s) else getPop (getReload agg s)

/-- `PersistentUrlQueue.task_done`: bump `finished_tasks`, drop
`unfinished_tasks` and `in_progress`, and mark the backing row done when
the record carries a `_sqlite_queue_id`.  (The too-many-calls ValueError
fires after these updates and changes no state.) -/
def doTaskDone (it : Item) (s : QState) : QState :=
  let s1 := { s with
    finished_tasks := s.finished_tasks + 1,
    unfinished_tasks := s.unfinished_tasks - 1,
    in_progress := s.in_progress - 1 }
  match it.sqlite_queue_id with
  | some i => { s1 with store := s1.store.mark_url_done i }
  | none => s1

/-- `PersistentUrlQueue._persist_memory_queue`: route every memory record
without a pre-computed result through the overflow path, then flush. -/
def persistMemoryQueue (s : QState) : QState :=
  flushOverflow
    (s.queue.foldl
      (fun acc it => if it.has_result then acc else overflowOne it acc) s)

/-- `PersistentUrlQueue.do_shutdown`: flush staging, persist the memory
FIFO, clear it, fold `_sqlite_pending` out of `unfinished_tasks` and set
the shutdown flag.  The returned flag is the 'shutdown is in error'
ValueError, raised (after the FIFO is cleared and `_sqlite_pending`
zeroed) before `unfinished_tasks` or the shutdown flag is written. -/
def doShutdown (s : QState) : QState × Bool :=
  let s1 := flushOverflow s
  let s2 := persistMemoryQueue s1
  let s3 := { s2 with queue := [] }
  let u := s3.unfinished_tasks - s3.sqlite_pending
  let s4 := { s3 with sqlite_pending := 0 }
  if u < 0 then (s4, true)
  else ({ s4 with unfinished_tasks := u, shutdown := true }, false)

/-- `PersistentUrlQueue.status`. -/
def qStatus (s : QState) : Nat × Int × Nat :=
  (s.finished_tasks, s.in_progress,
   s.queue.length + s.sqlite_pending.toNat + s.overflow_buffer.length)

/-! ## Operation traces -/

inductive Op where
  | put (it : Item)
  | get
  | taskDone (it : Item)

/-- Run one operation; the returned number is 1 for an admitted put. -/
def stepOp (agg : Option (QueueRow → Option Item)) (s : QState) (op : Op) :
    QState × Nat :=
  match op with
  | .put it =>
    let r := doPut it s
    (r.1, if r.2 then 1 else 0)
  | .get => ((doGet agg s).2, 0)
  | .taskDone it => (doTaskDone it s, 0)

/-- Run a trace, counting admitted puts. -/
def execOps (agg : Option (QueueRow → Option Item)) (ops : List Op)
    (s : QState) : QState × Nat :=
  match ops with
  | [] => (s, 0)
  | op :: rest =>
    let r := stepOp agg s op
    let r2 := execOps agg rest r.1
    (r2.1, r.2 + r2.2)

end LinkCheck

namespace LinkCheck

/-! ## Claims about the durable store -/

/-- Claim C4: `reset_in_progress()` sets every `in_progress` row of
`url_queue` to `pending` — each such row survives with status `pending`
(its other columns untouched, `updated_at` refreshed), every other row is
kept exactly as it was, no queue row appears or disappears — and deletes
every `check_results` placeholder row (`valid = -1`) whose fingerprint
matches an `in_progress` row, in one atomic step (a single state
transition of the model), returning the number of rows reset; afterwards
`queue_stats()` reports zero `in_progress` rows and no placeholder remains
for the reset rows (result rows not matching are kept unchanged). -/
theorem claim_C4 (st : Store) :
    (st.reset_in_progress).1 =
      (st.url_queue.filter (fun r => r.status == .in_progress)).length ∧
    ((st.reset_in_progress).2.get_queue_stats).in_progress = 0 ∧
    (st.reset_in_progress).2.url_queue.length = st.url_queue.length ∧
    (∀ q ∈ st.url_queue, q.status = .in_progress →
      { q with status := .pending, updated_at := some st.clock } ∈
        (st.reset_in_progress).2.url_queue) ∧
    (∀ q ∈ st.url_queue, q.status ≠ .in_progress →
      q ∈ (st.reset_in_progress).2.url_queue) ∧
    (∀ q ∈ (st.reset_in_progress).2.url_queue, ∃ q0 ∈ st.url_queue,
      q = if q0.status = .in_progress then
        { q0 with status := .pending, updated_at := some st.clock }
      else q0) ∧
    (∀ r ∈ (st.reset_in_progress).2.check_results,
      ¬(r.valid = -1 ∧ r.cache_url ∈ st.in_progress_keys)) ∧
    (∀ r ∈ st.check_results,
      ¬(r.valid = -1 ∧ r.cache_url ∈ st.in_progress_keys) →
        r ∈ (st.reset_in_progress).2.check_results) := by
  refine ⟨rfl, ?_, ?_, ?_, ?_, ?_, ?_, ?_⟩
  · simp only [Store.reset_in_progress, Store.get_queue_stats]
    rw [List.length_eq_zero, List.filter_eq_nil_iff]
    intro q hq
    simp only [List.mem_map] at hq
    obtain ⟨q0, hq0, rfl⟩ := hq
    by_cases h : q0.status = .in_progress <;> simp [h]
  · simp only [Store.reset_in_progress]
    exact List.length_map _ _
  · intro q hq hip
    simp only [Store.reset_in_progress]
    have : (fun q : QueueRow =>
        if q.status == Status.in_progress then
          { q with status := Status.pending, updated_at := some st.clock }
        else q) q =
        { q with status := Status.pending, updated_at := some st.clock } := by
      simp [hip]
    exact this ▸ List.mem_map_of_mem _ hq
  · intro q hq hip
    simp only [Store.reset_in_progress]
    have : (fun q : QueueRow =>
        if q.status == Status.in_progress then
          { q with status := Status.pending, updated_at := some st.clock }
        else q) q = q := by
      simp [hip]
    exact this ▸ List.mem_map_of_mem _ hq
  · intro q hq
    simp only [Store.reset_in_progress, List.mem_map] at hq
    obtain ⟨q0, hq0, rfl⟩ := hq
    refine ⟨q0, hq0, ?_⟩
    by_cases h : q0.status = .in_progress
    · rw [if_pos h, if_pos (by simp [h])]
    · rw [if_neg h, if_neg (by simpa using h)]
  · intro r hr
    simp only [Store.reset_in_progress, List.mem_filter] at hr
    obtain ⟨hmem, hpred⟩ := hr
    simp only [Bool.not_eq_true', Bool.and_eq_false_iff, beq_eq_false_iff_ne,
      ne_eq] at hpred
    rintro ⟨hv, hk⟩
    rcases hpred with h | h
    · exact h hv
    · revert h; simpa using hk
  · intro r hr hnot
    simp only [Store.reset_in_progress, List.mem_filter]
    refine ⟨hr, ?_⟩
    simp only [Bool.not_eq_true', Bool.and_eq_false_iff, beq_eq_false_iff_ne,
      ne_eq]
    by_cases hv : r.valid = -1
    · right
      simpa using fun hk => hnot ⟨hv, hk⟩
    · left; exact hv

end LinkCheck

namespace LinkCheck

/-- Well-formedness of a store produced by id-assigning inserts: the queue
table is kept in strictly increasing rowid order (insertion order). -/
def StoreWF (st : Store) : Prop :=
  st.url_queue.Pairwise (fun a b => a.id < b.id)

instance (st : Store) : Decidable (StoreWF st) := by
  unfold StoreWF; infer_instance

/-- Status of the queue row with the given id. -/
def rowStatus (st : Store) (i : Nat) : Option Status :=
  (st.url_queue.find? (fun q => q.id == i)).map (fun q => q.status)

theorem find?_map_preserve_id {l : List QueueRow} {f : QueueRow → QueueRow}
    (hf : ∀ q, (f q).id = q.id) (i : Nat) :
    (l.map f).find? (fun q => q.id == i) =
      (l.find? (fun q => q.id == i)).map f := by
  induction l with
  | nil => rfl
  | cons a t ih =>
    simp only [List.map_cons, List.find?_cons, hf a]
    by_cases h : a.id == i
    · simp [h]
    · simp only [h, ih]

theorem find?_eq_of_mem_pairwise {l : List QueueRow}
    (h : l.Pairwise (fun a b => a.id < b.id)) {r : QueueRow} (hr : r ∈ l) :
    l.find? (fun q => q.id == r.id) = some r := by
  induction l with
  | nil => cases hr
  | cons a t ih =>
    rcases List.mem_cons.mp hr with rfl | hrt
    · simp [List.find?_cons]
    · have hlt : a.id < r.id := (List.pairwise_cons.mp h).1 r hrt
      have hne : (a.id == r.id) = false := by
        simp only [beq_eq_false_iff_ne, ne_eq]; omega
      simp only [List.find?_cons, hne]
      exact ih (List.pairwise_cons.mp h).2 hrt

theorem dequeue_urls_fst (st : Store) (n : Nat) :
    (st.dequeue_urls n).1 =
      (st.url_queue.filter (fun r => r.status == .pending)).take n := by
  simp only [Store.dequeue_urls]
  split <;> rfl

theorem dequeue_urls_snd_queue (st : Store) (n : Nat) :
    (st.dequeue_urls n).2.url_queue = st.url_queue.map (fun q =>
      if ((st.url_queue.filter (fun r => r.status == .pending)).take n).any
          (fun r => r.id == q.id) then
        { q with status := .in_progress, updated_at := some st.clock }
      else q) := by
  simp only [Store.dequeue_urls]
  split
  · next h =>
    rw [List.isEmpty_iff] at h
    conv_lhs => rw [show st.url_queue = st.url_queue.map id by simp]
    apply List.map_congr_left
    intro q _
    simp [h]
  · rfl

/-- Claim C6: `dequeue(n)` returns up to `n` of the oldest pending rows of
`url_queue` in insertion order (id ascending: the returned list is sorted
by id and every pending row left behind has a larger id than every returned
row), only rows with status `pending` are ever returned, and in the same
atomic transaction exactly those rows are marked `in_progress` while every
other row keeps its status. -/
theorem claim_C6 (st : Store) (n : Nat) (hwf : StoreWF st) :
    (st.dequeue_urls n).1.length ≤ n ∧
    (∀ r ∈ (st.dequeue_urls n).1, r.status = .pending ∧ r ∈ st.url_queue) ∧
    (st.dequeue_urls n).1.Pairwise (fun a b => a.id < b.id) ∧
    (∀ r ∈ (st.dequeue_urls n).1, ∀ q ∈ st.url_queue,
      q.status = .pending → q ∉ (st.dequeue_urls n).1 → r.id < q.id) ∧
    (∀ r ∈ (st.dequeue_urls n).1,
      rowStatus (st.dequeue_urls n).2 r.id = some .in_progress) ∧
    (∀ q ∈ st.url_queue, (¬ ∃ r ∈ (st.dequeue_urls n).1, r.id = q.id) →
      rowStatus (st.dequeue_urls n).2 q.id = some q.status) := by
  have hpend : st.url_queue.filter (fun r => r.status == .pending)
      = (st.url_queue.filter (fun r => r.status == .pending)).take n ++
        (st.url_queue.filter (fun r => r.status == .pending)).drop n :=
    (List.take_append_drop n _).symm
  have hfwf : (st.url_queue.filter (fun r => r.status == .pending)).Pairwise
      (fun a b => a.id < b.id) := List.Pairwise.filter _ hwf
  have hrows : ∀ r ∈ (st.dequeue_urls n).1,
      r.status = .pending ∧ r ∈ st.url_queue := by
    intro r hr
    rw [dequeue_urls_fst] at hr
    have := List.mem_of_mem_take hr
    rw [List.mem_filter] at this
    exact ⟨by simpa using this.2, this.1⟩
  have hid : ∀ q : QueueRow,
      ((if ((st.url_queue.filter (fun r => r.status == .pending)).take n).any
          (fun r => r.id == q.id) then
        { q with status := Status.in_progress, updated_at := some st.clock }
      else q)).id = q.id := by
    intro q; split <;> rfl
  refine ⟨?_, hrows, ?_, ?_, ?_, ?_⟩
  · rw [dequeue_urls_fst]
    exact List.length_take_le n _
  · rw [dequeue_urls_fst]
    exact hfwf.sublist (List.take_sublist n _)
  · intro r hr q hq hqp hqn
    rw [dequeue_urls_fst] at hr hqn
    have hqf : q ∈ st.url_queue.filter (fun x => x.status == .pending) := by
      rw [List.mem_filter]; exact ⟨hq, by simp [hqp]⟩
    have hqd : q ∈ (st.url_queue.filter
        (fun x => x.status == .pending)).drop n := by
      rw [hpend] at hqf
      rcases List.mem_append.mp hqf with h | h
      · exact absurd h hqn
      · exact h
    exact (List.pairwise_append.mp (hpend ▸ hfwf)).2.2 r hr q hqd
  · intro r hr
    have hfind := find?_eq_of_mem_pairwise hwf (hrows r hr).2
    rw [dequeue_urls_fst] at hr
    simp only [rowStatus, dequeue_urls_snd_queue]
    rw [find?_map_preserve_id hid r.id, hfind]
    have hcond : ∃ x ∈ (st.url_queue.filter
        (fun x => x.status == Status.pending)).take n, x.id = r.id :=
      ⟨r, hr, rfl⟩
    simp [hcond]
  · intro q hq hqn
    have hfind := find?_eq_of_mem_pairwise hwf hq
    rw [dequeue_urls_fst] at hqn
    simp only [rowStatus, dequeue_urls_snd_queue]
    rw [find?_map_preserve_id hid q.id, hfind]
    have hcond : ¬ ∃ x ∈ (st.url_queue.filter
        (fun x => x.status == Status.pending)).take n, x.id = q.id := by
      rintro ⟨x, hx, hxq⟩
      exact hqn ⟨x, hx, hxq⟩
    simp [hcond]

/-- Witness for C6 on a concrete two-row store. -/
theorem claim_C6_witness :
    StoreWF ((Store.enqueue_url
      { url := "u2", cache_url := some "u2", parent_url := "",
        base_ref := "", recursion_level := 0, line := 0, column := 0,
        page := 0, name := "", extern_val := .emptyStr, url_encoding := "",
        parent_content_type := "" }
      ((Store.enqueue_url
        { url := "u1", cache_url := some "u1", parent_url := "",
          base_ref := "", recursion_level := 0, line := 0, column := 0,
          page := 0, name := "", extern_val := .emptyStr,
          url_encoding := "", parent_content_type := "" } freshStore).2)).2)
    ∧ ∀ r ∈ (((Store.enqueue_url
      { url := "u2", cache_url := some "u2", parent_url := "",
        base_ref := "", recursion_level := 0, line := 0, column := 0,
        page := 0, name := "", extern_val := .emptyStr, url_encoding := "",
        parent_content_type := "" }
      ((Store.enqueue_url
        { url := "u1", cache_url := some "u1", parent_url := "",
          base_ref := "", recursion_level := 0, line := 0, column := 0,
          page := 0, name := "", extern_val := .emptyStr,
          url_encoding := "", parent_content_type := "" }
          freshStore).2)).2).dequeue_urls 1).1, r.status = .pending := by
  refine ⟨by decide, ?_⟩
  intro r hr
  exact ((claim_C6 _ 1 (by decide)).2.1 r hr).1

end LinkCheck

namespace LinkCheck

theorem find?_append_right {l1 l2 : List ResultRow} {p : ResultRow → Bool}
    (h : ∀ r ∈ l1, p r = false) :
    (l1 ++ l2).find? p = l2.find? p := by
  induction l1 with
  | nil => rfl
  | cons a t ih =>
    rw [List.cons_append, List.find?_cons, h a (List.mem_cons_self a t)]
    exact ih (fun r hr => h r (List.mem_cons_of_mem a hr))

theorem has_result_false_all {st : Store} {fp : String}
    (h : st.has_result fp = false) :
    ∀ r ∈ st.check_results, (r.cache_url == fp) = false := by
  intro r hr
  rw [Store.has_result, List.any_eq_false] at h
  exact Bool.not_eq_true _ ▸ (h r hr)

/-- Claim C8: `enqueue(rec)` returns true exactly when the record is
inserted and false on a fingerprint conflict, with no error surfaced (the
IntegrityError is swallowed into the boolean); a false return leaves the
store unchanged, and for any two calls with the same non-null fingerprint
the second returns false and changes nothing. -/
theorem claim_C8 (st : Store) (info info2 : UrlInfo) (key : String)
    (h1 : info.cache_url = some key) (h2 : info2.cache_url = some key) :
    ((Store.enqueue_url info st).1 = true ↔
      ¬ st.url_queue.any (fun r => r.cache_url == some key)) ∧
    ((Store.enqueue_url info st).1 = false →
      (Store.enqueue_url info st).2 = st) ∧
    (Store.enqueue_url info2 (Store.enqueue_url info st).2).1 = false ∧
    (Store.enqueue_url info2 (Store.enqueue_url info st).2).2 =
      (Store.enqueue_url info st).2 := by
  by_cases hc : st.url_queue.any (fun r => r.cache_url == some key)
  · have hfail : Store.enqueue_url info st = (false, st) := by
      simp [Store.enqueue_url, Store.insert_queue_row, h1, hc]
    rw [hfail]
    have hfail2 : Store.enqueue_url info2 st = (false, st) := by
      simp [Store.enqueue_url, Store.insert_queue_row, h2, hc]
    simp [hfail2, hc]
  · have hok : Store.enqueue_url info st =
        (true, { st with
          url_queue := st.url_queue ++ [mkQueueRow info st.next_id st.clock],
          next_id := st.next_id + 1, clock := st.clock + 1 }) := by
      simp [Store.enqueue_url, Store.insert_queue_row, h1, hc]
    rw [hok]
    have hc2 : (st.url_queue ++
        [mkQueueRow info st.next_id st.clock]).any
          (fun r => r.cache_url == some key) = true := by
      rw [List.any_append]
      simp [mkQueueRow, h1]
    have hfail2 : Store.enqueue_url info2
        { st with
          url_queue := st.url_queue ++ [mkQueueRow info st.next_id st.clock],
          next_id := st.next_id + 1, clock := st.clock + 1 } =
        (false, { st with
          url_queue := st.url_queue ++ [mkQueueRow info st.next_id st.clock],
          next_id := st.next_id + 1, clock := st.clock + 1 }) := by
      simp only [Store.enqueue_url, Store.insert_queue_row, h2]
      simp [hc2]
    simp [hfail2, hc]

/-- Claim C7: for a fingerprint absent from `check_results`, inserting the
placeholder gives a row that `get_result` decodes to null while
`has_result` reports true and `result_count` still excludes it; replacing
the placeholder with a real row makes `get_result` return the decoded
record and `result_count` include it. -/
theorem claim_C7 (st : Store) (fp : String) (w : WireDict)
    (hfresh : st.has_result fp = false) :
    (Store.add_result fp none st).get_result fp = none ∧
    (Store.add_result fp none st).has_result fp = true ∧
    (Store.add_result fp none st).get_result_count = st.get_result_count ∧
    ((Store.add_result fp (some w)
      (Store.add_result fp none st)).get_result fp).isSome = true ∧
    (Store.add_result fp (some w)
      (Store.add_result fp none st)).get_result_count =
        st.get_result_count + 1 := by
  have hany : st.check_results.any (fun r => r.cache_url == fp) = false := by
    simpa [Store.has_result] using hfresh
  have hph : Store.add_result fp none st =
      { st with
        check_results := st.check_results ++ [placeholderRow fp st.clock],
        clock := st.clock + 1 } := by
    simp [Store.add_result, hany]
  have hall := has_result_false_all hfresh
  refine ⟨?_, ?_, ?_, ?_, ?_⟩
  · rw [hph]
    simp only [Store.get_result]
    rw [find?_append_right hall]
    simp [placeholderRow, rowToWireDict]
  · rw [hph]
    simp only [Store.has_result, List.any_append]
    simp [placeholderRow]
  · rw [hph]
    simp only [Store.get_result_count, List.filter_append]
    simp [placeholderRow]
  · rw [hph]
    simp only [Store.add_result, Store.get_result, List.filter_append]
    have hkeep : (st.check_results.filter
        (fun r => !(r.cache_url == fp))) = st.check_results :=
      List.filter_eq_self.mpr (fun r hr => by simp [hall r hr])
    simp only [hkeep]
    rw [show (List.filter (fun r => !(r.cache_url == fp))
        [placeholderRow fp st.clock]) = [] by simp [placeholderRow]]
    rw [List.append_nil, find?_append_right hall]
    simp only [List.find?_cons, encodeResultRow, beq_self_eq_true, if_pos]
    by_cases hv : w.valid <;> simp [rowToWireDict, hv]
  · rw [hph]
    simp only [Store.add_result, Store.get_result_count, List.filter_append]
    have hkeep : (st.check_results.filter
        (fun r => !(r.cache_url == fp))) = st.check_results :=
      List.filter_eq_self.mpr (fun r hr => by simp [hall r hr])
    simp only [hkeep]
    rw [show (List.filter (fun r => !(r.cache_url == fp))
        [placeholderRow fp st.clock]) = [] by simp [placeholderRow]]
    simp only [List.append_nil, List.filter_append, List.length_append]
    by_cases hv : w.valid <;> simp [encodeResultRow, hv]

/-- Witness for C7 at a fresh store and a concrete wire record. -/
theorem claim_C7_witness :
    (Store.add_result "f" none freshStore).get_result "f" = none ∧
    (Store.add_result "f" none freshStore).has_result "f" = true ∧
    (Store.add_result "f" none freshStore).get_result_count =
      freshStore.get_result_count ∧
    ((Store.add_result "f" (some
        { url := "u", valid := true, extern_val := false, result := "ok",
          warnings := [("t", "m")], info := ["i"], name := "", title := "",
          parent_url := "", base_ref := "", base_url := "", domain := "",
          content_type := "", size := 10, modified := none, dltime := 0,
          checktime := 0, line := 1, column := 2, page := 0, level := 0,
          cache_url := some "f" })
      (Store.add_result "f" none freshStore)).get_result "f").isSome = true ∧
    (Store.add_result "f" (some
        { url := "u", valid := true, extern_val := false, result := "ok",
          warnings := [("t", "m")], info := ["i"], name := "", title := "",
          parent_url := "", base_ref := "", base_url := "", domain := "",
          content_type := "", size := 10, modified := none, dltime := 0,
          checktime := 0, line := 1, column := 2, page := 0, level := 0,
          cache_url := some "f" })
      (Store.add_result "f" none freshStore)).get_result_count =
        freshStore.get_result_count + 1 :=
  claim_C7 freshStore "f" _ (by decide)

end LinkCheck

namespace LinkCheck

/-- A concrete url_info used by witnesses. -/
def sampleInfo (u : String) : UrlInfo :=
  { url := u, cache_url := some u, parent_url := "", base_ref := "",
    recursion_level := 0, line := 0, column := 0, page := 0, name := "",
    extern_val := .emptyStr, url_encoding := "",
    parent_content_type := "text/html" }

/-- Witness for C8: two enqueues of the same fingerprint on a fresh store. -/
theorem claim_C8_witness :
    ((Store.enqueue_url (sampleInfo "k") freshStore).1 = true ↔
      ¬ freshStore.url_queue.any (fun r => r.cache_url == some "k")) ∧
    ((Store.enqueue_url (sampleInfo "k") freshStore).1 = false →
      (Store.enqueue_url (sampleInfo "k") freshStore).2 = freshStore) ∧
    (Store.enqueue_url (sampleInfo "k")
      (Store.enqueue_url (sampleInfo "k") freshStore).2).1 = false ∧
    (Store.enqueue_url (sampleInfo "k")
      (Store.enqueue_url (sampleInfo "k") freshStore).2).2 =
      (Store.enqueue_url (sampleInfo "k") freshStore).2 :=
  claim_C8 freshStore (sampleInfo "k") (sampleInfo "k") "k" (by decide)
    (by decide)

/-- Claim C5: for every wire-shaped result and fingerprint,
`add_result(fp, w)` followed by `get_result(fp)` returns a record equal to
`w` field-wise — in particular `modified` is re-materialised as a timestamp
value by `_deserialize_modified` (not left as the stored ISO string) and
every `warnings` element as a pair (not the decoded JSON list).  The wire
shape's own `cache_url` is the fingerprint under which it is stored. -/
theorem claim_C5 (st : Store) (fp : String) (w : WireDict)
    (hcu : w.cache_url = some fp)
    (hok : ∀ d, w.modified = some d → d.ok) :
    (Store.add_result fp (some w) st).get_result fp = some w := by
  obtain ⟨url, valid, extern_val, result, warnings, info, name, title,
    parent_url, base_ref, base_url, domain, content_type, size, modified,
    dltime, checktime, line, column, page, level, cache_url⟩ := w
  dsimp only at hcu hok
  simp only [Store.add_result, Store.get_result]
  rw [find?_append_right (fun r hr => by
      have := (List.mem_filter.mp hr).2
      simpa using this)]
  have hv : ((if valid then (1 : Int) else 0) == -1) = false := by
    by_cases h : valid <;> simp [h]
  simp only [List.find?_cons, encodeResultRow, beq_self_eq_true, if_pos,
    rowToWireDict]
  dsimp only
  rw [if_neg (by simp only [hv]; exact Bool.false_ne_true)]
  have hval : (!((if valid then (1 : Int) else 0) == 0)) = valid := by
    by_cases h : valid <;> simp [h]
  have hext : (!((if extern_val then (1 : Int) else 0) == 0))
      = extern_val := by
    by_cases h : extern_val <;> simp [h]
  have hw : (warnings.map (fun p => [p.1, p.2])).map tupleOfList
      = warnings := by
    rw [List.map_map]
    conv_rhs => rw [← List.map_id warnings]
    exact List.map_congr_left (fun p _ => rfl)
  have hmod : deserializeModified (serializeModified modified) = modified :=
    deserialize_serialize_modified hok
  rw [hval, hext, hw, hmod, ← hcu]

/-- Witness for C5 with a concrete wire record carrying a datetime and a
warnings pair. -/
theorem claim_C5_witness :
    (Store.add_result "fp" (some
      { url := "http://e", valid := true, extern_val := false,
        result := "200 OK", warnings := [("w", "msg"), ("x", "y")],
        info := ["a", "b"], name := "n", title := "t", parent_url := "p",
        base_ref := "", base_url := "http://e", domain := "e",
        content_type := "text/html", size := 123,
        modified := some ⟨2024, 5, 17, 12, 30, 45, 123456⟩, dltime := 2,
        checktime := 3, line := 7, column := 8, page := 0, level := 1,
        cache_url := some "fp" }) freshStore).get_result "fp" = some
      { url := "http://e", valid := true, extern_val := false,
        result := "200 OK", warnings := [("w", "msg"), ("x", "y")],
        info := ["a", "b"], name := "n", title := "t", parent_url := "p",
        base_ref := "", base_url := "http://e", domain := "e",
        content_type := "text/html", size := 123,
        modified := some ⟨2024, 5, 17, 12, 30, 45, 123456⟩, dltime := 2,
        checktime := 3, line := 7, column := 8, page := 0, level := 1,
        cache_url := some "fp" } :=
  claim_C5 freshStore "fp" _ (by decide) (by decide)

end LinkCheck

namespace LinkCheck

/-- Claim C9: a fingerprint living only in the durable store (never added
through this `PersistentResultCache` instance, e.g. a warm store reopened
after a restart) is reported absent by `has_result()`, and stays absent
even after a successful `get_result()` for it, because a `get_result` LRU
miss promotes the row into the LRU but never adds the key to
`_known_keys`. -/
theorem claim_C9 (st : Store) (fp : String) (memory_cache_size : Nat)
    (w : WireDict) (hw : st.get_result fp = some w) :
    cacheHasResult (some fp) (freshCache st memory_cache_size) = false ∧
    (cacheGetResult (some fp) (freshCache st memory_cache_size) st).1 =
      some w ∧
    cacheHasResult (some fp)
      (cacheGetResult (some fp) (freshCache st memory_cache_size) st).2 =
      false := by
  refine ⟨rfl, ?_, ?_⟩
  · simp [cacheGetResult, freshCache, hw]
  · simp [cacheGetResult, freshCache, hw, lruPut, cacheHasResult]

/-- Witness for C9: a store holding one real result, consumed by a fresh
cache. -/
theorem claim_C9_witness :
    cacheHasResult (some "f")
      (freshCache (Store.add_result "f" (some
        { url := "u", valid := true, extern_val := false, result := "ok",
          warnings := [], info := [], name := "", title := "",
          parent_url := "", base_ref := "", base_url := "", domain := "",
          content_type := "", size := 1, modified := none, dltime := 0,
          checktime := 0, line := 0, column := 0, page := 0, level := 0,
          cache_url := some "f" }) freshStore) 10) = false ∧
    (cacheGetResult (some "f")
      (freshCache (Store.add_result "f" (some
        { url := "u", valid := true, extern_val := false, result := "ok",
          warnings := [], info := [], name := "", title := "",
          parent_url := "", base_ref := "", base_url := "", domain := "",
          content_type := "", size := 1, modified := none, dltime := 0,
          checktime := 0, line := 0, column := 0, page := 0, level := 0,
          cache_url := some "f" }) freshStore) 10)
      (Store.add_result "f" (some
        { url := "u", valid := true, extern_val := false, result := "ok",
          warnings := [], info := [], name := "", title := "",
          parent_url := "", base_ref := "", base_url := "", domain := "",
          content_type := "", size := 1, modified := none, dltime := 0,
          checktime := 0, line := 0, column := 0, page := 0, level := 0,
          cache_url := some "f" }) freshStore)).1 = some
        { url := "u", valid := true, extern_val := false, result := "ok",
          warnings := [], info := [], name := "", title := "",
          parent_url := "", base_ref := "", base_url := "", domain := "",
          content_type := "", size := 1, modified := none, dltime := 0,
          checktime := 0, line := 0, column := 0, page := 0, level := 0,
          cache_url := some "f" } ∧
    cacheHasResult (some "f")
      (cacheGetResult (some "f")
        (freshCache (Store.add_result "f" (some
          { url := "u", valid := true, extern_val := false, result := "ok",
            warnings := [], info := [], name := "", title := "",
            parent_url := "", base_ref := "", base_url := "", domain := "",
            content_type := "", size := 1, modified := none, dltime := 0,
            checktime := 0, line := 0, column := 0, page := 0, level := 0,
            cache_url := some "f" }) freshStore) 10)
        (Store.add_result "f" (some
          { url := "u", valid := true, extern_val := false, result := "ok",
            warnings := [], info := [], name := "", title := "",
            parent_url := "", base_ref := "", base_url := "", domain := "",
            content_type := "", size := 1, modified := none, dltime := 0,
            checktime := 0, line := 0, column := 0, page := 0, level := 0,
            cache_url := some "f" }) freshStore)).2 = false :=
  claim_C9 _ "f" 10 _ (by decide)

end LinkCheck

namespace LinkCheck

/-! ## Claims about the hybrid queue -/

/-- An ordinary url record with the given url as its fingerprint, as the
witnesses and counterexamples use it. -/
def mkItem (u : String) : Item :=
  { url := u, base_url := u, cache_url := some u, has_result := false,
    parent_url := "", base_ref := "", recursion_level := 0, line := 0,
    column := 0, page := 0, name := "", extern_val := .emptyStr,
    content_encoding := "", parent_content_type := "",
    sqlite_queue_id := none }

/-- The trace exhibiting the empty-pop fault of `_get`: buffer cap 1, two
ordinary puts (the second overflowing to staging), one successful get, and
a rebuilder that fails on every row (`rebuild_url_data` raising, the
RebuildError path of the spec). -/
def c10state : QState :=
  (execOps (some (fun _ => none))
    [.put (mkItem "a"), .put (mkItem "b"), .get] (freshQ 1 10 none)).1

/-- Claim C10, refuted on the code: at `c10state` the queue is not empty
(one record is pending in the durable tier), so `get` neither blocks nor
raises Empty, yet the batch reload drops its only row (rebuild failure),
`in_progress` is incremented and the final `popleft` of the memory FIFO
faults on an empty deque (IndexError) instead of returning a record. -/
theorem claim_C10 :
    qEmptyB c10state = false ∧
    (doGet (some (fun _ => none)) c10state).1 = GetOut.fault ∧
    (doGet (some (fun _ => none)) c10state).2.in_progress =
      c10state.in_progress + 1 := by
  decide

end LinkCheck

namespace LinkCheck

/-! ## The C2 counter invariant -/

/-- In a trace of put/get/task_done operations no real result is ever
written: every LRU entry and every `check_results` row is a placeholder. -/
def Placeholders (s : QState) : Prop :=
  (∀ kv ∈ s.cache.lru, kv.2 = (none : Option WireDict)) ∧
  (∀ r ∈ s.store.check_results, r.valid = -1)

theorem hasNonEmpty_eq_none {s : QState} (hp : Placeholders s)
    (cu : String) : hasNonEmptyResult cu s.cache s.store = none := by
  unfold hasNonEmptyResult
  cases hfind : s.cache.lru.find? (fun p => p.1 == cu) with
  | some p => exact hp.1 p (List.mem_of_find?_eq_some hfind)
  | none =>
    unfold Store.get_result
    cases hf2 : s.store.check_results.find? (fun r => r.cache_url == cu) with
    | none => rfl
    | some r =>
      have hv := hp.2 r (List.mem_of_find?_eq_some hf2)
      simp [rowToWireDict, hv]

theorem insert_queue_row_check_results {info : UrlInfo} {st st' : Store}
    (h : st.insert_queue_row info = some st') :
    st'.check_results = st.check_results := by
  simp only [Store.insert_queue_row] at h
  split at h
  · exact Option.noConfusion h
  · cases h; rfl

theorem batch_fold_check_results (infos : List UrlInfo)
    (acc : Nat × Store) :
    ((infos.foldl
      (fun acc info =>
        match acc.2.insert_queue_row info with
        | some st' => (acc.1 + 1, st')
        | none => acc) acc).2).check_results = acc.2.check_results := by
  induction infos generalizing acc with
  | nil => rfl
  | cons a t ih =>
    rw [List.foldl_cons]
    cases hins : acc.2.insert_queue_row a with
    | some st' =>
      simp only [hins]
      rw [ih]
      exact insert_queue_row_check_results hins
    | none => simp only [hins]; exact ih acc

theorem enqueue_urls_batch_check_results (infos : List UrlInfo)
    (st : Store) :
    (Store.enqueue_urls_batch infos st).2.check_results =
      st.check_results :=
  batch_fold_check_results infos (0, st)

end LinkCheck

namespace LinkCheck

theorem mark_url_done_check_results (i : Nat) (st : Store) :
    (st.mark_url_done i).check_results = st.check_results := rfl

theorem dequeue_urls_check_results (n : Nat) (st : Store) :
    ((st.dequeue_urls n).2).check_results = st.check_results := by
  simp only [Store.dequeue_urls]
  split <;> rfl

/-- Fields of the queue state untouched by `_flush_overflow`. -/
theorem flushOverflow_frame (s : QState) :
    (flushOverflow s).cache = s.cache ∧
    (flushOverflow s).store.check_results = s.store.check_results ∧
    (flushOverflow s).queue = s.queue ∧
    (flushOverflow s).finished_tasks = s.finished_tasks ∧
    (flushOverflow s).unfinished_tasks = s.unfinished_tasks ∧
    (flushOverflow s).in_progress = s.in_progress ∧
    (flushOverflow s).shutdown = s.shutdown ∧
    (flushOverflow s).buffer_size = s.buffer_size ∧
    (flushOverflow s).max_allowed_urls = s.max_allowed_urls := by
  unfold flushOverflow
  split
  · exact ⟨rfl, rfl, rfl, rfl, rfl, rfl, rfl, rfl, rfl⟩
  · exact ⟨rfl, enqueue_urls_batch_check_results _ _, rfl, rfl, rfl, rfl,
      rfl, rfl, rfl⟩

/-- Fields of the queue state untouched by `_overflow_to_sqlite`. -/
theorem overflowOne_frame (it : Item) (s : QState) :
    (overflowOne it s).cache = s.cache ∧
    (overflowOne it s).store.check_results = s.store.check_results ∧
    (overflowOne it s).queue = s.queue ∧
    (overflowOne it s).finished_tasks = s.finished_tasks ∧
    (overflowOne it s).unfinished_tasks = s.unfinished_tasks ∧
    (overflowOne it s).in_progress = s.in_progress ∧
    (overflowOne it s).shutdown = s.shutdown ∧
    (overflowOne it s).buffer_size = s.buffer_size ∧
    (overflowOne it s).max_allowed_urls = s.max_allowed_urls := by
  simp only [overflowOne]
  split
  · exact flushOverflow_frame _
  · exact ⟨rfl, rfl, rfl, rfl, rfl, rfl, rfl, rfl, rfl⟩

theorem lruPut_none_all {c : CacheState}
    (hc : ∀ kv ∈ c.lru, kv.2 = (none : Option WireDict)) (k : String) :
    ∀ kv ∈ (lruPut k none c).lru, kv.2 = (none : Option WireDict) := by
  intro kv hkv
  unfold lruPut at hkv
  split at hkv
  · rcases List.mem_append.mp hkv with h | h
    · exact hc kv (List.mem_of_mem_filter h)
    · simp only [List.mem_singleton] at h
      subst h
      rfl
  · split at hkv
    · rcases List.mem_append.mp hkv with h | h
      · exact hc kv ((List.drop_sublist _ _).subset h)
      · simp only [List.mem_singleton] at h
        subst h
        rfl
    · rcases List.mem_append.mp hkv with h | h
      · exact hc kv h
      · simp only [List.mem_singleton] at h
        subst h
        rfl

theorem add_result_none_all {st : Store}
    (hs : ∀ r ∈ st.check_results, r.valid = -1) (k : String) :
    ∀ r ∈ (st.add_result k none).check_results, r.valid = -1 := by
  intro r hr
  simp only [Store.add_result] at hr
  split at hr
  · exact hs r hr
  · rcases List.mem_append.mp hr with h | h
    · exact hs r h
    · simp only [List.mem_singleton] at h
      subst h
      rfl

/-- A placeholder-only state stays placeholder-only across the cache write
performed by an admitted put (`add_result(key, None)`). -/
theorem cacheAddResult_none_pl {c : CacheState} {st : Store}
    (key : Option String)
    (h1 : ∀ kv ∈ c.lru, kv.2 = (none : Option WireDict))
    (h2 : ∀ r ∈ st.check_results, r.valid = -1) :
    (∀ kv ∈ (cacheAddResult key none c st).1.lru,
      kv.2 = (none : Option WireDict)) ∧
    (∀ r ∈ (cacheAddResult key none c st).2.check_results, r.valid = -1) := by
  cases key with
  | none => exact ⟨h1, h2⟩
  | some k =>
    refine ⟨?_, add_result_none_all h2 k⟩
    exact lruPut_none_all (c := { c with
      known_keys := addKnownKey k c.known_keys }) h1 k

/-- Under a placeholder-only state the completed-result skip of
`_load_from_sqlite` never fires. -/
theorem skipRow_false {s : QState} (hp : Placeholders s) (row : QueueRow) :
    skipRow row s.cache s.store = false := by
  unfold skipRow
  cases row.cache_url with
  | none => rfl
  | some cu => simp [hasNonEmpty_eq_none hp]

theorem loadStep_props (agg : Option (QueueRow → Option Item)) {s : QState}
    (row : QueueRow) (hp : Placeholders s) :
    (loadStep agg s row).cache = s.cache ∧
    (loadStep agg s row).store.check_results = s.store.check_results ∧
    (loadStep agg s row).finished_tasks = s.finished_tasks ∧
    (loadStep agg s row).unfinished_tasks = s.unfinished_tasks ∧
    (loadStep agg s row).in_progress = s.in_progress ∧
    (loadStep agg s row).shutdown = s.shutdown ∧
    (loadStep agg s row).buffer_size = s.buffer_size ∧
    (loadStep agg s row).max_allowed_urls = s.max_allowed_urls := by
  unfold loadStep
  cases agg with
  | none => exact ⟨rfl, rfl, rfl, rfl, rfl, rfl, rfl, rfl⟩
  | some rb =>
    rw [skipRow_false hp row]
    simp only [Bool.false_eq_true, if_false]
    cases rb row <;>
      exact ⟨rfl, rfl, rfl, rfl, rfl, rfl, rfl, rfl⟩

theorem loadFold_props (agg : Option (QueueRow → Option Item))
    (rows : List QueueRow) {s : QState} (hp : Placeholders s) :
    Placeholders (rows.foldl (loadStep agg) s) ∧
    (rows.foldl (loadStep agg) s).cache = s.cache ∧
    (rows.foldl (loadStep agg) s).store.check_results =
      s.store.check_results ∧
    (rows.foldl (loadStep agg) s).finished_tasks = s.finished_tasks ∧
    (rows.foldl (loadStep agg) s).unfinished_tasks = s.unfinished_tasks ∧
    (rows.foldl (loadStep agg) s).shutdown = s.shutdown ∧
    (rows.foldl (loadStep agg) s).buffer_size = s.buffer_size ∧
    (rows.foldl (loadStep agg) s).max_allowed_urls =
      s.max_allowed_urls := by
  induction rows generalizing s with
  | nil => exact ⟨hp, rfl, rfl, rfl, rfl, rfl, rfl, rfl⟩
  | cons a t ih =>
    rw [List.foldl_cons]
    obtain ⟨hc, hcr, hf, hu, hip, hsd, hb, hm⟩ := loadStep_props agg a hp
    have hp' : Placeholders (loadStep agg s a) := ⟨hc ▸ hp.1, hcr ▸ hp.2⟩
    obtain ⟨ph, c, cr, f, u, sd, b, m⟩ := ih hp'
    exact ⟨ph, c.trans hc, cr.trans hcr, f.trans hf, u.trans hu,
      sd.trans hsd, b.trans hb, m.trans hm⟩

theorem loadFromSqlite_props (agg : Option (QueueRow → Option Item))
    {s : QState} (hp : Placeholders s) :
    Placeholders (loadFromSqlite agg s) ∧
    (loadFromSqlite agg s).cache = s.cache ∧
    (loadFromSqlite agg s).store.check_results = s.store.check_results ∧
    (loadFromSqlite agg s).finished_tasks = s.finished_tasks ∧
    (loadFromSqlite agg s).unfinished_tasks = s.unfinished_tasks ∧
    (loadFromSqlite agg s).shutdown = s.shutdown ∧
    (loadFromSqlite agg s).buffer_size = s.buffer_size ∧
    (loadFromSqlite agg s).max_allowed_urls = s.max_allowed_urls := by
  unfold loadFromSqlite
  have hp1 : Placeholders { s with
      store := (Store.dequeue_urls BATCH_LOAD_SIZE s.store).2 } :=
    ⟨hp.1, by rw [dequeue_urls_check_results]; exact hp.2⟩
  obtain ⟨ph, c, cr, f, u, sd, b, m⟩ := loadFold_props agg _ hp1
  refine ⟨ph, c, ?_, f, u, sd, b, m⟩
  rw [cr, dequeue_urls_check_results]

end LinkCheck

namespace LinkCheck

/-- Effect of one `put` on the counter sum, in a placeholder-only state:
an admitted put raises `unfinished_tasks` by one, a dropped put changes
nothing, and the state stays placeholder-only. -/
theorem doPut_sum (it : Item) {s : QState} (hp : Placeholders s) :
    Placeholders (doPut it s).1 ∧
    ((doPut it s).1.finished_tasks : Int) +
        (doPut it s).1.unfinished_tasks =
      (s.finished_tasks : Int) + s.unfinished_tasks +
        (if (doPut it s).2 then 1 else 0) := by
  simp only [doPut]
  split
  · exact ⟨hp, by simp⟩
  · split
    · exact ⟨hp, by simp⟩
    · split
      · obtain ⟨h1, h2⟩ :=
          cacheAddResult_none_pl (c := s.cache) it.cache_url hp.1 hp.2
        exact ⟨⟨h1, h2⟩, by dsimp only; simp [add_assoc]⟩
      · split
        · exact ⟨hp, by simp⟩
        · next k heq =>
          split
          · obtain ⟨h1, h2⟩ :=
              cacheAddResult_none_pl (c := s.cache) it.cache_url hp.1
                hp.2
            exact ⟨⟨h1, h2⟩, by dsimp only; simp [add_assoc]⟩
          · obtain ⟨fc, fcr, fq, ff, fu, fip, fsd, fb, fm⟩ :=
              overflowOne_frame it { s with
                max_allowed_urls := s.max_allowed_urls.map (fun m => m - 1) }
            have h1p : ∀ kv ∈ (overflowOne it { s with
                max_allowed_urls :=
                  s.max_allowed_urls.map (fun m => m - 1) }).cache.lru,
                kv.2 = (none : Option WireDict) := by
              rw [fc]; exact hp.1
            have h2p : ∀ r ∈ (overflowOne it { s with
                max_allowed_urls :=
                  s.max_allowed_urls.map (fun m => m - 1)
              }).store.check_results, r.valid = -1 := by
              rw [fcr]; exact hp.2
            obtain ⟨h1, h2⟩ := cacheAddResult_none_pl it.cache_url h1p h2p
            refine ⟨⟨h1, h2⟩, ?_⟩
            dsimp only
            rw [ff, fu]
            dsimp only
            simp [add_assoc]

end LinkCheck

namespace LinkCheck

theorem getLoadIfPending_props (agg : Option (QueueRow → Option Item))
    {sa : QState} (h : Placeholders sa) :
    Placeholders (getLoadIfPending agg sa) ∧
    (getLoadIfPending agg sa).finished_tasks = sa.finished_tasks ∧
    (getLoadIfPending agg sa).unfinished_tasks = sa.unfinished_tasks := by
  unfold getLoadIfPending
  split
  · obtain ⟨ph, c, cr, f, u, _, _, _⟩ := loadFromSqlite_props agg h
    exact ⟨ph, f, u⟩
  · exact ⟨h, rfl, rfl⟩

theorem getReload_props (agg : Option (QueueRow → Option Item)) {s : QState}
    (hp : Placeholders s) :
    Placeholders (getReload agg s) ∧
    (getReload agg s).finished_tasks = s.finished_tasks ∧
    (getReload agg s).unfinished_tasks = s.unfinished_tasks := by
  have hsa : Placeholders
      (if s.overflow_buffer.isEmpty then s else flushOverflow s) ∧
      (if s.overflow_buffer.isEmpty then s
        else flushOverflow s).finished_tasks = s.finished_tasks ∧
      (if s.overflow_buffer.isEmpty then s
        else flushOverflow s).unfinished_tasks = s.unfinished_tasks := by
    split
    · exact ⟨hp, rfl, rfl⟩
    · obtain ⟨fc, fcr, fq, ff, fu, fip, fsd, fb, fm⟩ := flushOverflow_frame s
      refine ⟨⟨?_, ?_⟩, ff, fu⟩
      · rw [fc]; exact hp.1
      · rw [fcr]; exact hp.2
  obtain ⟨h1, h2, h3⟩ := hsa
  obtain ⟨g1, g2, g3⟩ := getLoadIfPending_props agg h1
  unfold getReload
  split
  · exact ⟨g1, g2.trans h2, g3.trans h3⟩
  · exact ⟨hp, rfl, rfl⟩

/-- A `get` in a placeholder-only state keeps the state placeholder-only
and never changes `finished_tasks` or `unfinished_tasks` (the
completed-result skip of the reload cannot fire). -/
theorem doGet_props (agg : Option (QueueRow → Option Item)) {s : QState}
    (hp : Placeholders s) :
    Placeholders (doGet agg s).2 ∧
    (doGet agg s).2.finished_tasks = s.finished_tasks ∧
    (doGet agg s).2.unfinished_tasks = s.unfinished_tasks := by
  unfold doGet
  split
  · exact ⟨hp, rfl, rfl⟩
  · obtain ⟨ph, f, u⟩ := getReload_props agg hp
    unfold getPop
    split
    · next heq => exact ⟨⟨ph.1, ph.2⟩, f, u⟩
    · next it rest heq =>
      exact ⟨⟨ph.1, ph.2⟩, f, u⟩

theorem doTaskDone_sum (it : Item) {s : QState} (hp : Placeholders s) :
    Placeholders (doTaskDone it s) ∧
    ((doTaskDone it s).finished_tasks : Int) +
        (doTaskDone it s).unfinished_tasks =
      (s.finished_tasks : Int) + s.unfinished_tasks := by
  unfold doTaskDone
  cases it.sqlite_queue_id with
  | some i =>
    refine ⟨⟨hp.1, ?_⟩, by push_cast; ring⟩
    intro r hr
    rw [mark_url_done_check_results] at hr
    exact hp.2 r hr
  | none => exact ⟨⟨hp.1, hp.2⟩, by push_cast; ring⟩

theorem stepOp_sum (agg : Option (QueueRow → Option Item)) (op : Op)
    {s : QState} (hp : Placeholders s) :
    Placeholders (stepOp agg s op).1 ∧
    ((stepOp agg s op).1.finished_tasks : Int) +
        (stepOp agg s op).1.unfinished_tasks =
      (s.finished_tasks : Int) + s.unfinished_tasks +
        (stepOp agg s op).2 := by
  cases op with
  | put it =>
    obtain ⟨ph, hsum⟩ := doPut_sum it hp
    refine ⟨ph, ?_⟩
    simp only [stepOp]
    rw [hsum]
    by_cases h : (doPut it s).2 <;> simp [h]
  | get =>
    obtain ⟨ph, f, u⟩ := doGet_props agg hp
    exact ⟨ph, by simp only [stepOp]; rw [f, u]; push_cast; ring⟩
  | taskDone it =>
    obtain ⟨ph, hsum⟩ := doTaskDone_sum it hp
    exact ⟨ph, by simp only [stepOp]; rw [hsum]; push_cast; ring⟩

theorem execOps_sum (agg : Option (QueueRow → Option Item)) (ops : List Op)
    {s : QState} (hp : Placeholders s) :
    Placeholders (execOps agg ops s).1 ∧
    ((execOps agg ops s).1.finished_tasks : Int) +
        (execOps agg ops s).1.unfinished_tasks =
      (s.finished_tasks : Int) + s.unfinished_tasks +
        (execOps agg ops s).2 := by
  induction ops generalizing s with
  | nil => exact ⟨hp, by simp [execOps]⟩
  | cons op rest ih =>
    obtain ⟨ph1, h1⟩ := stepOp_sum agg op hp
    obtain ⟨ph2, h2⟩ := ih ph1
    refine ⟨by simpa [execOps] using ph2, ?_⟩
    simp only [execOps]
    rw [h2, h1]
    push_cast
    ring

/-- Validity of a trace operation: an ordinary (non-pre-resolved) record
always carries a fingerprint, as real `url_data` objects do (a put of a
keyless ordinary record dies on the assert before touching any state, so
it is neither dropped by the three admission rules nor admitted). -/
def OpWF : Op → Prop
  | .put it => it.has_result = false → it.cache_url ≠ none
  | .get => True
  | .taskDone _ => True

instance : DecidablePred OpWF := by
  intro op
  cases op <;> simp only [OpWF] <;> infer_instance

/-- Claim C2: over any sequence of `put`/`get`/`task_done` operations on a
fresh hybrid queue (any buffer size, LRU size and quota, any injected
rebuilder), at every observation point
`finished_tasks + unfinished_tasks` equals the number of admitted puts —
puts not dropped by the shutdown flag, quota exhaustion or duplicate
suppression. -/
theorem claim_C2 (agg : Option (QueueRow → Option Item)) (ops : List Op)
    (buffer_size memory_cache_size : Nat) (maxU : Option Int)
    (hwf : ∀ op ∈ ops, OpWF op) :
    ((execOps agg ops
        (freshQ buffer_size memory_cache_size maxU)).1.finished_tasks : Int) +
      (execOps agg ops
        (freshQ buffer_size memory_cache_size maxU)).1.unfinished_tasks =
      (execOps agg ops (freshQ buffer_size memory_cache_size maxU)).2 := by
  have hp : Placeholders (freshQ buffer_size memory_cache_size maxU) :=
    ⟨fun kv hkv => (nomatch hkv), fun r hr => nomatch hr⟩
  have := (execOps_sum agg ops hp).2
  simpa [freshQ] using this

/-- Witness for C2: two puts of the same fingerprint (second suppressed),
a get and a task_done; the sum equals the single admitted put. -/
theorem claim_C2_witness :
    (∀ op ∈ ([.put (mkItem "x"), .put (mkItem "x"), .get,
        .taskDone (mkItem "x")] : List Op), OpWF op) ∧
    ((execOps none [.put (mkItem "x"), .put (mkItem "x"), .get,
        .taskDone (mkItem "x")] (freshQ 5 10 none)).1.finished_tasks : Int) +
      (execOps none [.put (mkItem "x"), .put (mkItem "x"), .get,
        .taskDone (mkItem "x")] (freshQ 5 10 none)).1.unfinished_tasks =
      (execOps none [.put (mkItem "x"), .put (mkItem "x"), .get,
        .taskDone (mkItem "x")] (freshQ 5 10 none)).2 :=
  ⟨by decide, claim_C2 none _ 5 10 none (by decide)⟩

end LinkCheck

namespace LinkCheck

/-! ## Conflict-free batch inserts

When the staged url_infos all carry fingerprints, pairwise distinct and
absent from the queue table, `enqueue_urls_batch` inserts every one of
them, as pending rows appended in order. -/

theorem batch_fold_clean (infos : List UrlInfo) (acc : Nat × Store)
    (hsome : ∀ info ∈ infos, info.cache_url ≠ none)
    (hnodup : (infos.map (fun i => i.cache_url)).Nodup)
    (hdisj : ∀ info ∈ infos, ∀ r ∈ acc.2.url_queue,
      info.cache_url ≠ r.cache_url) :
    (infos.foldl
      (fun acc info =>
        match acc.2.insert_queue_row info with
        | some st' => (acc.1 + 1, st')
        | none => acc) acc).1 = acc.1 + infos.length ∧
    ∃ rows : List QueueRow,
      (infos.foldl
        (fun acc info =>
          match acc.2.insert_queue_row info with
          | some st' => (acc.1 + 1, st')
          | none => acc) acc).2.url_queue = acc.2.url_queue ++ rows ∧
      rows.map (fun r => r.cache_url) = infos.map (fun i => i.cache_url) ∧
      ∀ r ∈ rows, r.status = .pending := by
  induction infos generalizing acc with
  | nil => exact ⟨rfl, [], by simp, rfl, fun r hr => nomatch hr⟩
  | cons a t ih =>
    obtain ⟨k, hk⟩ := Option.ne_none_iff_exists'.mp
      (hsome a (List.mem_cons_self a t))
    have hnoc : (acc.2.url_queue.any
        (fun r => r.cache_url == some k)) = false := by
      rw [List.any_eq_false]
      intro r hr
      have := hdisj a (List.mem_cons_self a t) r hr
      rw [hk] at this
      simpa using this.symm
    have hins : acc.2.insert_queue_row a = some { acc.2 with
        url_queue := acc.2.url_queue ++
          [mkQueueRow a acc.2.next_id acc.2.clock],
        next_id := acc.2.next_id + 1, clock := acc.2.clock + 1 } := by
      simp only [Store.insert_queue_row, hk, hnoc]
      rfl
    rw [List.foldl_cons, hins]
    have hsome' : ∀ info ∈ t, info.cache_url ≠ none :=
      fun info hi => hsome info (List.mem_cons_of_mem a hi)
    have hnodup' : (t.map (fun i => i.cache_url)).Nodup :=
      (List.nodup_cons.mp (by simpa using hnodup)).2
    have hnotint : a.cache_url ∉ t.map (fun i => i.cache_url) :=
      (List.nodup_cons.mp (by simpa using hnodup)).1
    have hdisj' : ∀ info ∈ t,
        ∀ r ∈ (acc.2.url_queue ++
          [mkQueueRow a acc.2.next_id acc.2.clock]),
        info.cache_url ≠ r.cache_url := by
      intro info hi r hr
      rcases List.mem_append.mp hr with h | h
      · exact hdisj info (List.mem_cons_of_mem a hi) r h
      · simp only [List.mem_singleton] at h
        subst h
        show info.cache_url ≠ (mkQueueRow a _ _).cache_url
        intro hcontra
        have hca : info.cache_url = a.cache_url := hcontra
        exact hnotint (hca ▸ List.mem_map_of_mem _ hi)
    obtain ⟨hcount, rows, hq, hmap, hst⟩ :=
      ih (acc.1 + 1, { acc.2 with
        url_queue := acc.2.url_queue ++
          [mkQueueRow a acc.2.next_id acc.2.clock],
        next_id := acc.2.next_id + 1, clock := acc.2.clock + 1 })
        hsome' hnodup' hdisj'
    refine ⟨by rw [hcount]; simp only [List.length_cons]; omega,
      mkQueueRow a acc.2.next_id acc.2.clock :: rows, ?_, ?_, ?_⟩
    · rw [hq]; simp
    · simp only [List.map_cons, hmap, mkQueueRow]
    · intro r hr
      rcases List.mem_cons.mp hr with rfl | hr2
      · rfl
      · exact hst r hr2

theorem batch_clean (infos : List UrlInfo) (st : Store)
    (hsome : ∀ info ∈ infos, info.cache_url ≠ none)
    (hnodup : (infos.map (fun i => i.cache_url)).Nodup)
    (hdisj : ∀ info ∈ infos, ∀ r ∈ st.url_queue,
      info.cache_url ≠ r.cache_url) :
    (Store.enqueue_urls_batch infos st).1 = infos.length ∧
    ∃ rows : List QueueRow,
      (Store.enqueue_urls_batch infos st).2.url_queue =
        st.url_queue ++ rows ∧
      rows.map (fun r => r.cache_url) = infos.map (fun i => i.cache_url) ∧
      ∀ r ∈ rows, r.status = .pending := by
  have := batch_fold_clean infos (0, st) hsome hnodup hdisj
  simpa [Store.enqueue_urls_batch] using this

end LinkCheck

namespace LinkCheck

/-- Bookkeeping invariant of the hybrid queue used by the put-growth
claim: staged records carry pairwise-distinct fingerprints absent from the
queue table, every staged or stored fingerprint is in `_known_keys`
(its placeholder was added when it was admitted), and the
`_sqlite_pending` counter is non-negative. -/
def PutReady (s : QState) : Prop :=
  (∀ info ∈ s.overflow_buffer, info.cache_url ≠ none) ∧
  (s.overflow_buffer.map (fun i => i.cache_url)).Nodup ∧
  (∀ info ∈ s.overflow_buffer, ∀ r ∈ s.store.url_queue,
    info.cache_url ≠ r.cache_url) ∧
  (∀ info ∈ s.overflow_buffer, ∀ k, info.cache_url = some k →
    k ∈ s.cache.known_keys) ∧
  (∀ r ∈ s.store.url_queue, ∀ k, r.cache_url = some k →
    k ∈ s.cache.known_keys) ∧
  0 ≤ s.sqlite_pending

instance (s : QState) : Decidable (PutReady s) := by
  unfold PutReady; infer_instance

theorem flushOverflow_clean (s : QState)
    (hsome : ∀ info ∈ s.overflow_buffer, info.cache_url ≠ none)
    (hnodup : (s.overflow_buffer.map (fun i => i.cache_url)).Nodup)
    (hdisj : ∀ info ∈ s.overflow_buffer, ∀ r ∈ s.store.url_queue,
      info.cache_url ≠ r.cache_url)
    (hpend : 0 ≤ s.sqlite_pending) :
    qsize (flushOverflow s) = qsize s ∧
    (flushOverflow s).cache = s.cache ∧
    0 ≤ (flushOverflow s).sqlite_pending ∧
    (flushOverflow s).queue = s.queue := by
  unfold flushOverflow
  split
  · exact ⟨rfl, rfl, hpend, rfl⟩
  · next hne =>
    obtain ⟨hcount, rows, hq, hmap, hst⟩ :=
      batch_clean s.overflow_buffer s.store hsome hnodup hdisj
    refine ⟨?_, rfl, ?_, rfl⟩
    · simp only [qsize, hcount, List.length_nil]
      omega
    · simp only [hcount]
      omega

theorem overflowOne_clean (it : Item) (s : QState) {F : String}
    (hsome : ∀ info ∈ s.overflow_buffer, info.cache_url ≠ none)
    (hnodup : (s.overflow_buffer.map (fun i => i.cache_url)).Nodup)
    (hdisj : ∀ info ∈ s.overflow_buffer, ∀ r ∈ s.store.url_queue,
      info.cache_url ≠ r.cache_url)
    (hit : it.cache_url = some F)
    (hFbuf : (some F : Option String) ∉
      s.overflow_buffer.map (fun i => i.cache_url))
    (hFtab : ∀ r ∈ s.store.url_queue, (some F : Option String) ≠ r.cache_url)
    (hpend : 0 ≤ s.sqlite_pending) :
    qsize (overflowOne it s) = qsize s + 1 ∧
    (overflowOne it s).cache = s.cache ∧
    0 ≤ (overflowOne it s).sqlite_pending ∧
    (overflowOne it s).queue = s.queue := by
  have hinfo : (overflowInfo it).cache_url = some F := hit
  have hsome1 : ∀ info ∈ s.overflow_buffer ++ [overflowInfo it],
      info.cache_url ≠ none := by
    intro info hi
    rcases List.mem_append.mp hi with h | h
    · exact hsome info h
    · simp only [List.mem_singleton] at h
      subst h
      rw [hinfo]
      exact Option.noConfusion
  have hnodup1 : ((s.overflow_buffer ++ [overflowInfo it]).map
      (fun i => i.cache_url)).Nodup := by
    rw [List.map_append]
    refine List.Nodup.append hnodup (by simp) ?_
    intro x hx hx2
    simp only [List.map_cons, List.map_nil, List.mem_singleton] at hx2
    subst hx2
    rw [hinfo] at hx
    exact hFbuf hx
  have hdisj1 : ∀ info ∈ s.overflow_buffer ++ [overflowInfo it],
      ∀ r ∈ s.store.url_queue, info.cache_url ≠ r.cache_url := by
    intro info hi r hr
    rcases List.mem_append.mp hi with h | h
    · exact hdisj info h r hr
    · simp only [List.mem_singleton] at h
      subst h
      rw [hinfo]
      exact hFtab r hr
  simp only [overflowOne]
  split
  · obtain ⟨q1, c1, p1, m1⟩ := flushOverflow_clean
      { s with overflow_buffer := s.overflow_buffer ++ [overflowInfo it] }
      hsome1 hnodup1 hdisj1 hpend
    refine ⟨?_, c1, p1, m1⟩
    rw [q1]
    simp only [qsize, List.length_append, List.length_cons, List.length_nil]
    omega
  · refine ⟨?_, rfl, hpend, rfl⟩
    simp only [qsize, List.length_append, List.length_cons, List.length_nil]
    omega

theorem mem_addKnownKey_self (k : String) (ks : List String) :
    k ∈ addKnownKey k ks := by
  unfold addKnownKey
  split
  · next h => simpa using h
  · exact List.mem_cons_self k ks

theorem mem_addKnownKey_of {k : String} {ks : List String} (k' : String)
    (h : k ∈ ks) : k ∈ addKnownKey k' ks := by
  unfold addKnownKey
  split
  · exact h
  · exact List.mem_cons_of_mem k' h

theorem lruPut_known (k : String) (v : Option WireDict) (c : CacheState) :
    (lruPut k v c).known_keys = c.known_keys := by
  unfold lruPut
  split
  · rfl
  · split <;> rfl

theorem cacheAddResult_some_known (k : String) (v : Option WireDict)
    (c : CacheState) (st : Store) :
    (cacheAddResult (some k) v c st).1.known_keys =
      addKnownKey k c.known_keys := by
  cases v with
  | none =>
    simp only [cacheAddResult]
    rw [lruPut_known]
  | some w =>
    simp only [cacheAddResult]
    rw [lruPut_known]

theorem mem_known_cacheAdd (k : String) (v : Option WireDict)
    (c : CacheState) (st : Store) :
    k ∈ (cacheAddResult (some k) v c st).1.known_keys := by
  rw [cacheAddResult_some_known]
  exact mem_addKnownKey_self k _

/-- A put whose fingerprint the cache already contains is a silent no-op
(so is any put while shut down or with an exhausted quota): the entire
state, durable store included, is returned unchanged. -/
theorem doPut_drop_cached (s0 : QState) (it0 : Item)
    (h : cacheHasResult it0.cache_url s0.cache = true) :
    doPut it0 s0 = (s0, false) := by
  unfold doPut
  split
  · rfl
  · simp [h]

/-- An admitted put: returns true, grows `qsize` by exactly one and leaves
the fingerprint in `_known_keys`. -/
theorem doPut_admit {s : QState} {it : Item} {F : String}
    (hready : PutReady s)
    (hF : cacheHasResult (some F) s.cache = false)
    (hsd : s.shutdown = false) (hq : s.max_allowed_urls ≠ some 0)
    (h1 : it.cache_url = some F) :
    (doPut it s).2 = true ∧
    qsize (doPut it s).1 = qsize s + 1 ∧
    F ∈ (doPut it s).1.cache.known_keys := by
  obtain ⟨hsome, hnodup, hdisj, hbufk, htabk, hpend⟩ := hready
  have hc1 : (s.shutdown || (s.max_allowed_urls == some 0)) = false := by
    rw [hsd, Bool.false_or, beq_eq_false_iff_ne]
    exact hq
  have hFmem : F ∉ s.cache.known_keys := by
    simp only [cacheHasResult] at hF
    simpa using hF
  unfold doPut
  rw [h1, hc1]
  simp only [Bool.false_eq_true, if_false, hF]
  split
  · refine ⟨rfl, ?_, ?_⟩
    · simp only [qsize, List.length_cons]
      omega
    · apply mem_known_cacheAdd
  · split
    · refine ⟨rfl, ?_, ?_⟩
      · simp only [qsize, List.length_append, List.length_cons,
          List.length_nil]
        omega
      · apply mem_known_cacheAdd
    · have hFbuf : (some F : Option String) ∉
          s.overflow_buffer.map (fun i => i.cache_url) := by
        intro hmemF
        obtain ⟨info, hi, hikey⟩ := List.mem_map.mp hmemF
        exact hFmem (hbufk info hi F hikey)
      have hFtab : ∀ r ∈ s.store.url_queue,
          (some F : Option String) ≠ r.cache_url := by
        intro r hr hcontra
        exact hFmem (htabk r hr F hcontra.symm)
      obtain ⟨q1, c1, p1, m1⟩ := overflowOne_clean it
        { s with max_allowed_urls := s.max_allowed_urls.map (fun m => m - 1) }
        hsome hnodup hdisj h1 hFbuf hFtab hpend
      refine ⟨rfl, ?_, ?_⟩
      · show qsize (overflowOne it { s with
            max_allowed_urls := s.max_allowed_urls.map (fun m => m - 1) })
          = qsize s + 1
        rw [q1]
        exact rfl
      · apply mem_known_cacheAdd

end LinkCheck

namespace LinkCheck

/-- The checker's `aggregate.result_cache.add_result(F, v)` against the
queue's shared cache and store. -/
def qAddResult (key : Option String) (v : Option WireDict) (s : QState) :
    QState :=
  { s with
    cache := (cacheAddResult key v s.cache s.store).1,
    store := (cacheAddResult key v s.cache s.store).2 }

/-- Claim C3: a put whose fingerprint the Result Cache already contains
(real result or placeholder) is silently dropped leaving the whole queue
state unchanged; since every admitted put writes a placeholder under its
fingerprint, putting fingerprint `F` twice grows the queue by exactly one
(the second put is the identity), and after a real `add_result(F, v)` a
third put of `F` is also a no-op. -/
theorem claim_C3 (s : QState) (F : String) (it it2 it3 : Item)
    (w : WireDict) (hready : PutReady s)
    (hF : cacheHasResult (some F) s.cache = false)
    (hsd : s.shutdown = false) (hq : s.max_allowed_urls ≠ some 0)
    (h1 : it.cache_url = some F) (h2 : it2.cache_url = some F)
    (h3 : it3.cache_url = some F) :
    (∀ s0 it0, cacheHasResult it0.cache_url s0.cache = true →
      doPut it0 s0 = (s0, false)) ∧
    (doPut it s).2 = true ∧
    qsize (doPut it s).1 = qsize s + 1 ∧
    doPut it2 (doPut it s).1 = ((doPut it s).1, false) ∧
    doPut it3 (qAddResult (some F) (some w) (doPut it s).1) =
      (qAddResult (some F) (some w) (doPut it s).1, false) := by
  obtain ⟨hadm, hsize, hknown⟩ := doPut_admit hready hF hsd hq h1
  refine ⟨doPut_drop_cached, hadm, hsize, ?_, ?_⟩
  · apply doPut_drop_cached
    rw [h2]
    simp only [cacheHasResult]
    exact List.elem_eq_true_of_mem hknown
  · apply doPut_drop_cached
    rw [h3]
    simp only [cacheHasResult, qAddResult]
    apply List.elem_eq_true_of_mem
    show F ∈ (cacheAddResult (some F) (some w) (doPut it s).1.cache
      (doPut it s).1.store).1.known_keys
    rw [cacheAddResult_some_known]
    exact mem_addKnownKey_of F hknown

/-- Witness for C3 on a fresh queue with buffer cap 0, so the admitted put
takes the overflow path. -/
theorem claim_C3_witness :
    (∀ s0 it0, cacheHasResult it0.cache_url s0.cache = true →
      doPut it0 s0 = (s0, false)) ∧
    (doPut (mkItem "F") (freshQ 0 10 none)).2 = true ∧
    qsize (doPut (mkItem "F") (freshQ 0 10 none)).1 =
      qsize (freshQ 0 10 none) + 1 ∧
    doPut (mkItem "F") (doPut (mkItem "F") (freshQ 0 10 none)).1 =
      ((doPut (mkItem "F") (freshQ 0 10 none)).1, false) ∧
    doPut (mkItem "F") (qAddResult (some "F") (some
      { url := "u", valid := true, extern_val := false, result := "ok",
        warnings := [], info := [], name := "", title := "",
        parent_url := "", base_ref := "", base_url := "", domain := "",
        content_type := "", size := 1, modified := none, dltime := 0,
        checktime := 0, line := 0, column := 0, page := 0, level := 0,
        cache_url := some "F" })
      (doPut (mkItem "F") (freshQ 0 10 none)).1) =
      (qAddResult (some "F") (some
        { url := "u", valid := true, extern_val := false, result := "ok",
          warnings := [], info := [], name := "", title := "",
          parent_url := "", base_ref := "", base_url := "", domain := "",
          content_type := "", size := 1, modified := none, dltime := 0,
          checktime := 0, line := 0, column := 0, page := 0, level := 0,
          cache_url := some "F" })
        (doPut (mkItem "F") (freshQ 0 10 none)).1, false) :=
  claim_C3 (freshQ 0 10 none) "F" (mkItem "F") (mkItem "F") (mkItem "F") _
    (by decide) (by decide) (by decide) (by decide) (by decide) (by decide)
    (by decide)

end LinkCheck

namespace LinkCheck

/-! ## Shutdown persistence (C1) -/

/-- Number of pending rows carrying the given fingerprint. -/
def countPending (st : Store) (k : String) : Nat :=
  (st.url_queue.filter (fun r =>
    r.status == .pending && r.cache_url == some k)).length

/-- The url_infos `_persist_memory_queue` stages: one per memory record
without a pre-computed result, in FIFO order. -/
def ordInfos (items : List Item) : List UrlInfo :=
  (items.filter (fun i => !i.has_result)).map overflowInfo

theorem ordInfos_cons (a : Item) (t : List Item) :
    ordInfos (a :: t) =
      if a.has_result then ordInfos t
      else overflowInfo a :: ordInfos t := by
  simp only [ordInfos, List.filter_cons]
  by_cases h : a.has_result <;> simp [h]

/-- Full effect of `_flush_overflow` on a clean staging list: every staged
record becomes a fresh pending row, appended in order. -/
theorem flushOverflow_spec (s : QState)
    (hsome : ∀ info ∈ s.overflow_buffer, info.cache_url ≠ none)
    (hnodup : (s.overflow_buffer.map (fun i => i.cache_url)).Nodup)
    (hdisj : ∀ info ∈ s.overflow_buffer, ∀ r ∈ s.store.url_queue,
      info.cache_url ≠ r.cache_url) :
    (flushOverflow s).overflow_buffer = [] ∧
    (flushOverflow s).queue = s.queue ∧
    (flushOverflow s).unfinished_tasks = s.unfinished_tasks ∧
    (flushOverflow s).shutdown = s.shutdown ∧
    (flushOverflow s).sqlite_pending =
      s.sqlite_pending + s.overflow_buffer.length ∧
    ∃ rows : List QueueRow,
      (flushOverflow s).store.url_queue = s.store.url_queue ++ rows ∧
      rows.map (fun r => r.cache_url) =
        s.overflow_buffer.map (fun i => i.cache_url) ∧
      ∀ r ∈ rows, r.status = .pending := by
  unfold flushOverflow
  split
  · next he =>
    rw [List.isEmpty_iff] at he
    refine ⟨he, rfl, rfl, rfl, by rw [he]; simp, [], by simp, by
      rw [he]; simp, fun r hr => nomatch hr⟩
  · obtain ⟨hcount, rows, hq, hmap, hst⟩ :=
      batch_clean s.overflow_buffer s.store hsome hnodup hdisj
    exact ⟨rfl, rfl, rfl, rfl, by simp [hcount], rows, hq, hmap, hst⟩

theorem nodup_append_parts (l1 l2 : List (Option String))
    (h : (l1 ++ l2).Nodup) :
    l1.Nodup ∧ l2.Nodup ∧ ∀ x ∈ l1, x ∉ l2 := by
  rw [List.nodup_append] at h
  exact ⟨h.1, h.2.1, fun x hx hx2 => h.2.2 hx hx2⟩

end LinkCheck

namespace LinkCheck

/-- Invariant carried through the staging fold of
`_persist_memory_queue`: every ordinary record processed so far is either
already a fresh pending row or still in the staging list, exactly once. -/
theorem persistFold_spec (items : List Item) (s : QState)
    (hsome : ∀ info ∈ s.overflow_buffer ++ ordInfos items,
      info.cache_url ≠ none)
    (hnodup : ((s.overflow_buffer ++ ordInfos items).map
      (fun i => i.cache_url)).Nodup)
    (hdisj : ∀ info ∈ s.overflow_buffer ++ ordInfos items,
      ∀ r ∈ s.store.url_queue, info.cache_url ≠ r.cache_url)
    (hpend : 0 ≤ s.sqlite_pending) :
    (items.foldl
      (fun acc it => if it.has_result then acc else overflowOne it acc)
      s).queue = s.queue ∧
    (items.foldl
      (fun acc it => if it.has_result then acc else overflowOne it acc)
      s).unfinished_tasks = s.unfinished_tasks ∧
    (items.foldl
      (fun acc it => if it.has_result then acc else overflowOne it acc)
      s).shutdown = s.shutdown ∧
    0 ≤ (items.foldl
      (fun acc it => if it.has_result then acc else overflowOne it acc)
      s).sqlite_pending ∧
    (items.foldl
      (fun acc it => if it.has_result then acc else overflowOne it acc)
      s).sqlite_pending + ((items.foldl
        (fun acc it => if it.has_result then acc else overflowOne it acc)
        s).overflow_buffer.length : Int) =
      s.sqlite_pending + s.overflow_buffer.length +
        (ordInfos items).length ∧
    (∀ info ∈ (items.foldl
      (fun acc it => if it.has_result then acc else overflowOne it acc)
      s).overflow_buffer, info.cache_url ≠ none) ∧
    ((items.foldl
      (fun acc it => if it.has_result then acc else overflowOne it acc)
      s).overflow_buffer.map (fun i => i.cache_url)).Nodup ∧
    (∀ info ∈ (items.foldl
      (fun acc it => if it.has_result then acc else overflowOne it acc)
      s).overflow_buffer, ∀ r ∈ (items.foldl
        (fun acc it => if it.has_result then acc else overflowOne it acc)
        s).store.url_queue, info.cache_url ≠ r.cache_url) ∧
    ∃ rows : List QueueRow,
      (items.foldl
        (fun acc it => if it.has_result then acc else overflowOne it acc)
        s).store.url_queue = s.store.url_queue ++ rows ∧
      rows.map (fun r => r.cache_url) ++
        (items.foldl
          (fun acc it => if it.has_result then acc else overflowOne it acc)
          s).overflow_buffer.map (fun i => i.cache_url) =
        s.overflow_buffer.map (fun i => i.cache_url) ++
          (ordInfos items).map (fun i => i.cache_url) ∧
      ∀ r ∈ rows, r.status = .pending := by
  induction items generalizing s with
  | nil =>
    refine ⟨rfl, rfl, rfl, hpend, by simp [ordInfos], ?_, ?_, ?_, [],
      by simp, by simp [ordInfos], fun r hr => nomatch hr⟩
    · intro info hi
      exact hsome info (by simpa [ordInfos] using hi)
    · simpa [ordInfos] using hnodup
    · intro info hi r hr
      exact hdisj info (by simpa [ordInfos] using hi) r hr
  | cons a t ih =>
    rw [List.foldl_cons]
    by_cases ha : a.has_result
    · rw [if_pos ha]
      rw [ordInfos_cons, if_pos ha] at hsome hnodup hdisj
      obtain ⟨c1, c2, c3, c4, c5, c6, c7, c8, rows, e1, e2, e3⟩ :=
        ih s hsome hnodup hdisj hpend
      exact ⟨c1, c2, c3, c4, by rw [c5, ordInfos_cons, if_pos ha], c6, c7,
        c8, rows, e1, by rw [e2, ordInfos_cons, if_pos ha], e3⟩
    · rw [if_neg ha]
      rw [ordInfos_cons, if_neg ha] at hsome hnodup hdisj
      -- restated hypotheses over (buffer ++ [info a]) ++ ordInfos t
      have hsome2 : ∀ info ∈ (s.overflow_buffer ++ [overflowInfo a]) ++
          ordInfos t, info.cache_url ≠ none := by
        intro info hi
        refine hsome info ?_
        rw [List.append_assoc, List.singleton_append] at hi
        exact hi
      have hnodup2 : (((s.overflow_buffer ++ [overflowInfo a]) ++
          ordInfos t).map (fun i => i.cache_url)).Nodup := by
        rw [List.append_assoc, List.singleton_append]
        exact hnodup
      have hdisj2 : ∀ info ∈ (s.overflow_buffer ++ [overflowInfo a]) ++
          ordInfos t, ∀ r ∈ s.store.url_queue,
          info.cache_url ≠ r.cache_url := by
        intro info hi
        refine hdisj info ?_
        rw [List.append_assoc, List.singleton_append] at hi
        exact hi
      rw [show overflowOne a s =
          (if OVERFLOW_CHECK_INTERVAL ≤
              (s.overflow_buffer ++ [overflowInfo a]).length then
            flushOverflow { s with
              overflow_buffer := s.overflow_buffer ++ [overflowInfo a] }
          else { s with
            overflow_buffer := s.overflow_buffer ++ [overflowInfo a] })
          from rfl]
      by_cases hflush : OVERFLOW_CHECK_INTERVAL ≤
        (s.overflow_buffer ++ [overflowInfo a]).length
      · -- the staging list reached the flush interval
        rw [if_pos hflush]
        have hparts := nodup_append_parts
          ((s.overflow_buffer ++ [overflowInfo a]).map (fun i => i.cache_url))
          ((ordInfos t).map (fun i => i.cache_url))
          (by rw [← List.map_append]; exact hnodup2)
        obtain ⟨fb, fq, fu, fsd, fp, rows0, f1, f2, f3⟩ :=
          flushOverflow_spec
            { s with overflow_buffer := s.overflow_buffer ++ [overflowInfo a] }
            (fun info hi => hsome2 info (List.mem_append_left _ hi))
            hparts.1
            (fun info hi r hr => hdisj2 info (List.mem_append_left _ hi) r hr)
        set f := flushOverflow
          { s with overflow_buffer := s.overflow_buffer ++ [overflowInfo a] }
          with hf
        have hsome3 : ∀ info ∈ f.overflow_buffer ++ ordInfos t,
            info.cache_url ≠ none := by
          intro info hi
          rw [fb, List.nil_append] at hi
          exact hsome2 info (List.mem_append_right _ hi)
        have hnodup3 : ((f.overflow_buffer ++ ordInfos t).map
            (fun i => i.cache_url)).Nodup := by
          rw [fb, List.nil_append]
          exact hparts.2.1
        have hdisj3 : ∀ info ∈ f.overflow_buffer ++ ordInfos t,
            ∀ r ∈ f.store.url_queue, info.cache_url ≠ r.cache_url := by
          intro info hi r hr
          rw [fb, List.nil_append] at hi
          rw [f1] at hr
          rcases List.mem_append.mp hr with h | h
          · exact hdisj2 info (List.mem_append_right _ hi) r h
          · intro hcontra
            have hrk : r.cache_url ∈ rows0.map (fun r => r.cache_url) :=
              List.mem_map_of_mem _ h
            rw [f2] at hrk
            have hik : info.cache_url ∈ (ordInfos t).map
                (fun i => i.cache_url) := List.mem_map_of_mem _ hi
            exact hparts.2.2 r.cache_url (hcontra ▸ hrk) (hcontra ▸ hik)
        have hpend3 : 0 ≤ f.sqlite_pending := by
          rw [fp]
          dsimp only
          simp only [List.length_append, List.length_cons, List.length_nil]
          omega
        obtain ⟨c1, c2, c3, c4, c5, c6, c7, c8, rows1, e1, e2, e3⟩ :=
          ih f hsome3 hnodup3 hdisj3 hpend3
        refine ⟨c1.trans fq, c2.trans fu, c3.trans fsd, c4, ?_, c6, c7,
          ?_, rows0 ++ rows1, ?_, ?_, ?_⟩
        · rw [c5, fp, fb, ordInfos_cons, if_neg ha]
          dsimp only
          simp only [List.length_nil, List.length_append,
            List.length_cons]
          push_cast
          ring
        · intro info hi r hr
          rw [e1] at hr
          rcases List.mem_append.mp hr with h | h
          · exact c8 info hi r (by rw [e1]; exact List.mem_append_left _ h)
          · exact c8 info hi r (by rw [e1]; exact List.mem_append_right _ h)
        · rw [e1, f1, List.append_assoc]
        · rw [List.map_append, List.append_assoc, e2, f2, fb]
          simp only [List.map_nil, List.nil_append, List.map_append,
            List.map_cons, ordInfos_cons, if_neg ha]
          rw [List.append_assoc]
          simp
        · intro r hr
          rcases List.mem_append.mp hr with h | h
          · exact f3 r h
          · exact e3 r h
      · -- staged without flushing
        rw [if_neg hflush]
        obtain ⟨c1, c2, c3, c4, c5, c6, c7, c8, rows1, e1, e2, e3⟩ :=
          ih { s with overflow_buffer := s.overflow_buffer ++
            [overflowInfo a] } hsome2 hnodup2 hdisj2 hpend
        refine ⟨c1, c2, c3, c4, ?_, c6, c7, c8, rows1, e1, ?_, e3⟩
        · rw [c5, ordInfos_cons, if_neg ha]
          dsimp only
          simp only [List.length_append, List.length_cons,
            List.length_nil]
          push_cast
          ring
        · rw [e2]
          simp only [List.map_append, List.map_cons, List.map_nil,
            ordInfos_cons, if_neg ha]
          rw [List.append_assoc]
          simp

end LinkCheck

namespace LinkCheck

theorem count_eq_one_of_mem_nodup {α : Type} [BEq α] [LawfulBEq α]
    {l : List α} (d : l.Nodup) {a : α} (h : a ∈ l) : l.count a = 1 := by
  induction l with
  | nil => cases h
  | cons b t ih =>
    rw [List.count_cons]
    rcases List.mem_cons.mp h with rfl | ht
    · have hb : a ∉ t := (List.nodup_cons.mp d).1
      rw [List.count_eq_zero.mpr hb, if_pos (by simp)]
    · have hb : b ∉ t := (List.nodup_cons.mp d).1
      have hba : ¬(b == a) = true := by
        simp only [beq_iff_eq]
        rintro rfl
        exact hb ht
      rw [ih (List.nodup_cons.mp d).2 ht, if_neg hba]

theorem pendingRows_count (rows : List QueueRow)
    (hst : ∀ r ∈ rows, r.status = .pending) (k : String) :
    (rows.filter (fun r =>
      r.status == .pending && r.cache_url == some k)).length =
    (rows.map (fun r => r.cache_url)).count (some k) := by
  induction rows with
  | nil => rfl
  | cons a t ih =>
    have ha := hst a (List.mem_cons_self a t)
    have iht := ih (fun r hr => hst r (List.mem_cons_of_mem a hr))
    simp only [List.filter_cons, List.map_cons, List.count_cons, ha]
    by_cases hk : a.cache_url = some k
    · simp [hk, iht]
    · simp only [beq_self_eq_true, Bool.true_and]
      rw [if_neg (by simpa using hk)]
      simp only [iht]
      rw [if_neg (by simpa using hk)]
      omega

theorem no_pending_key (l : List QueueRow) (k : String)
    (hnone : ∀ r ∈ l, r.cache_url ≠ some k) :
    (l.filter (fun r =>
      r.status == .pending && r.cache_url == some k)).length = 0 := by
  rw [List.length_eq_zero, List.filter_eq_nil_iff]
  intro r hr
  simp [hnone r hr]

/-- Bookkeeping invariant under which `do_shutdown` persists everything:
every record in the memory FIFO or overflow staging carries a fingerprint,
those fingerprints are pairwise distinct and — crucially, the condition the
batch-reload counterexample violates — none of them already has a row in
the `url_queue` table; the counters are consistent
(`0 ≤ _sqlite_pending` and the persisted records were all counted in
`unfinished_tasks`). -/
def ShutdownReady (s : QState) : Prop :=
  (∀ info ∈ s.overflow_buffer ++ ordInfos s.queue, info.cache_url ≠ none) ∧
  ((s.overflow_buffer ++ ordInfos s.queue).map
    (fun i => i.cache_url)).Nodup ∧
  (∀ info ∈ s.overflow_buffer ++ ordInfos s.queue,
    ∀ r ∈ s.store.url_queue, info.cache_url ≠ r.cache_url) ∧
  0 ≤ s.sqlite_pending ∧
  s.sqlite_pending + (s.overflow_buffer.length : Int) +
    ((ordInfos s.queue).length : Int) ≤ s.unfinished_tasks

instance (s : QState) : Decidable (ShutdownReady s) := by
  unfold ShutdownReady; infer_instance

end LinkCheck

namespace LinkCheck

/-- Claim C1, amended: for every queue state satisfying the bookkeeping
invariant `ShutdownReady` — in particular, no record sitting in the memory
FIFO or overflow staging already has a row in the durable queue table
(records batch-reloaded from the store violate this and instead keep their
`in_progress` row, see the counterexample) — `do_shutdown()` flushes the
overflow staging and persists every memory-FIFO record without a
pre-computed result, so that each such fingerprint ends up as a pending row
exactly once, every other fingerprint's pending count is untouched, the
memory FIFO is left empty, the shutdown flag is set and no error is
raised. -/
theorem claim_C1 (s : QState) (h : ShutdownReady s) :
    (doShutdown s).2 = false ∧
    (doShutdown s).1.queue = [] ∧
    (doShutdown s).1.shutdown = true ∧
    (doShutdown s).1.sqlite_pending = 0 ∧
    (∀ k : String, some k ∈ (s.overflow_buffer ++ ordInfos s.queue).map
        (fun i => i.cache_url) →
      countPending (doShutdown s).1.store k = 1) ∧
    (∀ k : String, some k ∉ (s.overflow_buffer ++ ordInfos s.queue).map
        (fun i => i.cache_url) →
      countPending (doShutdown s).1.store k = countPending s.store k) := by
  obtain ⟨hsome, hnodup, hdisj, hpend, hbound⟩ := h
  have hpartsA := nodup_append_parts
    (s.overflow_buffer.map (fun i => i.cache_url))
    ((ordInfos s.queue).map (fun i => i.cache_url))
    (by rw [← List.map_append]; exact hnodup)
  obtain ⟨fb, fq, fu, fsd, fp, rows0, f1, f2, f3⟩ := flushOverflow_spec s
    (fun i hi => hsome i (List.mem_append_left _ hi)) hpartsA.1
    (fun i hi r hr => hdisj i (List.mem_append_left _ hi) r hr)
  set s1 := flushOverflow s with hs1
  have hsomeB : ∀ info ∈ s1.overflow_buffer ++ ordInfos s1.queue,
      info.cache_url ≠ none := by
    rw [fb, fq, List.nil_append]
    intro i hi
    exact hsome i (List.mem_append_right _ hi)
  have hnodupB : ((s1.overflow_buffer ++ ordInfos s1.queue).map
      (fun i => i.cache_url)).Nodup := by
    rw [fb, fq, List.nil_append]
    exact hpartsA.2.1
  have hdisjB : ∀ info ∈ s1.overflow_buffer ++ ordInfos s1.queue,
      ∀ r ∈ s1.store.url_queue, info.cache_url ≠ r.cache_url := by
    rw [fb, fq, List.nil_append]
    intro i hi r hr
    rw [f1] at hr
    rcases List.mem_append.mp hr with hh | hh
    · exact hdisj i (List.mem_append_right _ hi) r hh
    · intro hcontra
      have hrk : r.cache_url ∈ rows0.map (fun r => r.cache_url) :=
        List.mem_map_of_mem _ hh
      rw [f2] at hrk
      have hik : i.cache_url ∈ (ordInfos s.queue).map
          (fun i => i.cache_url) := List.mem_map_of_mem _ hi
      exact hpartsA.2.2 r.cache_url (hcontra ▸ hrk) (hcontra ▸ hik)
  have hpendB : 0 ≤ s1.sqlite_pending := by
    rw [fp]; omega
  obtain ⟨c1, c2, c3, c4, c5, c6, c7, c8, rowsM, e1, e2, e3⟩ :=
    persistFold_spec s1.queue s1 hsomeB hnodupB hdisjB hpendB
  set T := s1.queue.foldl
    (fun acc it => if it.has_result then acc else overflowOne it acc) s1
    with hT
  obtain ⟨gb, gq, gu, gsd, gp, rowsT, g1, g2, g3⟩ :=
    flushOverflow_spec T c6 c7 c8
  have hpm : persistMemoryQueue s1 = flushOverflow T := by
    rw [hT]
    rfl
  have hordq : ordInfos s1.queue = ordInfos s.queue := by rw [fq]
  -- the final unfinished count is non-negative
  have hpend2 : (flushOverflow T).sqlite_pending =
      s.sqlite_pending + (s.overflow_buffer.length : Int) +
        ((ordInfos s.queue).length : Int) := by
    rw [gp, c5, fp, fb, hordq]
    simp only [List.length_nil]
    push_cast
    ring
  have hunf2 : (flushOverflow T).unfinished_tasks = s.unfinished_tasks := by
    rw [gu, c2, fu]
  have hnoerr : ¬((flushOverflow T).unfinished_tasks -
      (flushOverflow T).sqlite_pending < 0) := by
    rw [hunf2, hpend2]
    omega
  have hres : doShutdown s =
      ({ flushOverflow T with
          queue := [], sqlite_pending := 0,
          unfinished_tasks := (flushOverflow T).unfinished_tasks -
            (flushOverflow T).sqlite_pending,
          shutdown := true }, false) := by
    simp only [doShutdown, ← hs1, hpm]
    rw [if_neg (by simpa using hnoerr)]
  rw [hres]
  refine ⟨rfl, rfl, rfl, rfl, ?_, ?_⟩
  all_goals
    intro k hk
    change countPending (flushOverflow T).store k = _
    simp only [countPending]
    rw [g1, e1, f1]
    simp only [List.filter_append, List.length_append]
    rw [pendingRows_count rows0 f3 k, pendingRows_count rowsM e3 k,
      pendingRows_count rowsT g3 k, f2]
  · -- staged fingerprints: exactly one pending row
    have hzero : (s.store.url_queue.filter (fun r =>
        r.status == .pending && r.cache_url == some k)).length = 0 := by
      apply no_pending_key
      intro r hr hcontra
      obtain ⟨i, hi, hik⟩ := List.mem_map.mp hk
      exact hdisj i hi r hr (by rw [hik, hcontra])
    have hM : List.map (fun r => r.cache_url) rowsM ++
        List.map (fun r => r.cache_url) rowsT =
        List.map (fun i => i.cache_url) (ordInfos s.queue) := by
      have h2 := e2
      rw [fb, hordq, ← g2] at h2
      simpa using h2
    have hcount : (List.map (fun i => i.cache_url)
          s.overflow_buffer).count (some k) +
        ((List.map (fun r => r.cache_url) rowsM).count (some k) +
          (List.map (fun r => r.cache_url) rowsT).count (some k)) = 1 := by
      rw [← List.count_append, hM, ← List.count_append, ← List.map_append]
      exact count_eq_one_of_mem_nodup hnodup hk
    omega
  · -- other fingerprints: pending count unchanged
    have hM : List.map (fun r => r.cache_url) rowsM ++
        List.map (fun r => r.cache_url) rowsT =
        List.map (fun i => i.cache_url) (ordInfos s.queue) := by
      have h2 := e2
      rw [fb, hordq, ← g2] at h2
      simpa using h2
    have hcount : (List.map (fun i => i.cache_url)
          s.overflow_buffer).count (some k) +
        ((List.map (fun r => r.cache_url) rowsM).count (some k) +
          (List.map (fun r => r.cache_url) rowsT).count (some k)) = 0 := by
      rw [← List.count_append, hM, ← List.count_append, ← List.map_append]
      exact List.count_eq_zero.mpr hk
    omega

end LinkCheck

namespace LinkCheck

/-- The 20-put shutdown scenario: buffer cap 5, flush interval 100, so 5
records sit in memory and 15 in overflow staging. -/
def c1scenario : QState :=
  (execOps none
    ((List.range 20).map (fun i => Op.put (mkItem (toString i))))
    (freshQ 5 100 none)).1

/-- Witness for the amended C1: the 20-put scenario satisfies the
invariant, and shutdown persists each of the 20 fingerprints exactly once
as a pending row. -/
theorem claim_C1_witness :
    ShutdownReady c1scenario ∧
    ((doShutdown c1scenario).2 = false ∧
    (doShutdown c1scenario).1.queue = [] ∧
    (doShutdown c1scenario).1.shutdown = true ∧
    (doShutdown c1scenario).1.sqlite_pending = 0 ∧
    (∀ k : String, some k ∈ (c1scenario.overflow_buffer ++
        ordInfos c1scenario.queue).map (fun i => i.cache_url) →
      countPending (doShutdown c1scenario).1.store k = 1) ∧
    (∀ k : String, some k ∉ (c1scenario.overflow_buffer ++
        ordInfos c1scenario.queue).map (fun i => i.cache_url) →
      countPending (doShutdown c1scenario).1.store k =
        countPending c1scenario.store k)) :=
  ⟨by decide, claim_C1 c1scenario (by decide)⟩

/-- Modelled from the spec: the injected record rebuilder
(`url_rebuilder.rebuild_url_data` calls `get_url_from`, which lives in the
checker package outside the embedded sources).  Per spec section 6 it
returns a record rebuilt from the stored row with the store row-id
attached; its cache key is the fingerprint of the stored URL, i.e. the
row's stored `cache_url`. -/
def modelRebuild (row : QueueRow) : Option Item :=
  some { url := row.url, base_url := row.url, cache_url := row.cache_url,
         has_result := false, parent_url := row.parent_url,
         base_ref := row.base_ref, recursion_level := row.recursion_level,
         line := row.line, column := row.column_num, page := row.page,
         name := row.name, extern_val := row.extern_val,
         content_encoding := row.url_encoding,
         parent_content_type := row.parent_content_type,
         sqlite_queue_id := some row.id }

/-- The state refuting C1 as stated: buffer cap 1; three ordinary puts
(two overflow to the store), then two gets — the second batch-loads rows
b and c into memory (marking them `in_progress` in the store) and returns
b, leaving the reloaded record c in the memory FIFO. -/
def c1ctrex : QState :=
  (execOps (some modelRebuild)
    [.put (mkItem "a"), .put (mkItem "b"), .put (mkItem "c"), .get, .get]
    (freshQ 1 10 none)).1

/-- Counterexample to C1 as stated: at `c1ctrex` the record with
fingerprint "c" was put (3 puts admitted) and never dequeued (it is the
sole memory-FIFO entry, an ordinary record), yet after `do_shutdown()` —
which completes without error and sets the flag — no pending row for "c"
exists: the persist insert conflicts with c's existing `in_progress` row,
so the record is not recoverable as pending. -/
theorem claim_C1_counterexample :
    (execOps (some modelRebuild)
      [.put (mkItem "a"), .put (mkItem "b"), .put (mkItem "c"), .get, .get]
      (freshQ 1 10 none)).2 = 3 ∧
    c1ctrex.queue.map (fun i => i.cache_url) = [some "c"] ∧
    c1ctrex.queue.map (fun i => i.has_result) = [false] ∧
    (doShutdown c1ctrex).2 = false ∧
    (doShutdown c1ctrex).1.shutdown = true ∧
    countPending (doShutdown c1ctrex).1.store "c" = 0 ∧
    rowStatus (doShutdown c1ctrex).1.store 2 = some .in_progress := by
  decide

end LinkCheck
